import Mathlib

/-!
Verification development for the TOON language-server engine: a shallow
embedding of the lexer, the error-recovering parser, the UTF-16 bridge,
the references service, the semantic-token encoder, the formatter and the
document state, together with theorems checking the specification's claims
against this embedding.

Conventions of the embedding:
* Rust `u32` positions are modelled as `Nat` (no position in a document
  this size overflows 32 bits, and the source never relies on wrapping).
* Rust `u64`/`i64` literal parsing keeps its range checks explicitly.
* Rust iterators over characters become `List Char`; byte offsets advance
  by the UTF-8 size of each character, exactly as `char_indices` does.
* Fallible Rust code (`Result`, slicing panics) returns `Except`/`Option`.
* Unbounded `while` loops of the source become fuel-indexed recursion;
  running out of fuel returns the same value the loop's `break` would,
  and entry points pass fuel large enough for every token to be consumed.
* `f64` values are not modelled; a float literal is carried as its source
  text, and the Rust `f64::from_str` success test is modelled by a
  decidable grammar predicate.  No claim inspects a float's value.
-/

namespace Toon

/-- Source position: 0-based line, column and byte offset
(mirrors `src/ast/span.rs` `Position`). -/
structure Position where
  line : Nat
  column : Nat
  offset : Nat
deriving Repr, DecidableEq

/-- Half-open source range (mirrors `src/ast/span.rs` `Span`). -/
structure Span where
  start : Position
  stop : Position
deriving Repr, DecidableEq

/-- Zero-width span at a position (mirrors `Span::point`). -/
def Span.point (p : Position) : Span := ⟨p, p⟩

/-- Containment by byte offset only (mirrors `Span::contains`). -/
def Span.containsPos (s : Span) (p : Position) : Bool :=
  s.start.offset ≤ p.offset && p.offset < s.stop.offset

/-- Merge of two spans (mirrors `Span::merge`, comparing offsets). -/
def Span.merge (s other : Span) : Span :=
  let st := if s.start.offset ≤ other.start.offset then s.start else other.start
  let en := if other.stop.offset ≤ s.stop.offset then s.stop else other.stop
  ⟨st, en⟩

/-- Byte length of a span (mirrors `Span::len`, saturating subtraction). -/
def Span.lenBytes (s : Span) : Nat := s.stop.offset - s.start.offset

/-- Array presentation form (mirrors `src/ast/node.rs` `ArrayForm`). -/
inductive ArrayForm where
  | inline
  | expanded
  | tabular
deriving Repr, DecidableEq

/-- Numeric value (mirrors `src/ast/node.rs` `NumberValue`).  `posInt`
carries the `u64`, `negInt` the `i64`; a float is carried as its source
text because `f64` is outside the embedding. -/
inductive NumberValue where
  | posInt (n : Nat)
  | negInt (n : Int)
  | float (raw : String)
deriving Repr, DecidableEq

mutual
/-- AST node (mirrors `src/ast/node.rs` `AstNode`). -/
inductive AstNode where
  | document (children : List AstNode) (span : Span)
  | object (entries : List ObjectEntry) (span : Span)
  | array (items : List AstNode) (form : ArrayForm) (span : Span)
  | string (value : String) (span : Span)
  | number (value : NumberValue) (span : Span)
  | bool (value : Bool) (span : Span)
  | null (span : Span)
deriving Repr
/-- Object entry (mirrors `src/ast/node.rs` `ObjectEntry`). -/
inductive ObjectEntry where
  | mk (key : String) (keySpan : Span) (value : AstNode)
deriving Repr
end

/-- Key of an entry. -/
def ObjectEntry.key : ObjectEntry → String
  | .mk k _ _ => k

/-- Key span of an entry. -/
def ObjectEntry.keySpan : ObjectEntry → Span
  | .mk _ s _ => s

/-- Value of an entry. -/
def ObjectEntry.value : ObjectEntry → AstNode
  | .mk _ _ v => v

/-- Span accessor (mirrors `AstNode::span`). -/
def AstNode.nodeSpan : AstNode → Span
  | .document _ s => s
  | .object _ s => s
  | .array _ _ s => s
  | .string _ s => s
  | .number _ s => s
  | .bool _ s => s
  | .null s => s

/-- UTF-8 byte size of a character (what `char::len_utf8` returns). -/
def charUtf8Size (c : Char) : Nat :=
  if c.toNat < 0x80 then 1
  else if c.toNat < 0x800 then 2
  else if c.toNat < 0x10000 then 3
  else 4

/-- UTF-16 code-unit count of a character (what `char::len_utf16`
returns, and what `utf16.rs` `char_utf16_len` computes). -/
def charUtf16Len (c : Char) : Nat :=
  if 0xFFFF < c.toNat then 2 else 1

/-- Token kinds (mirrors `src/parser/scanner.rs` `TokenKind`; the
keyword variants `True`/`False`/`Null` are named `trueK`/`falseK`/`nullK`
here). -/
inductive TokenKind where
  | colon
  | comma
  | newline
  | indent
  | dedent
  | eof
  | leftBracket
  | rightBracket
  | leftBrace
  | rightBrace
  | dash
  | string (s : String)
  | number (s : String)
  | trueK
  | falseK
  | nullK
  | identifier (s : String)
  | error (msg : String)
deriving Repr, DecidableEq

/-- Token with span (mirrors `Token`). -/
structure Token where
  kind : TokenKind
  span : Span
deriving Repr, DecidableEq

/-- Scanner bookkeeping other than the character stream itself
(the fields of `Scanner` except `source`/`chars`/`done`; the remaining
characters are passed as an explicit `List Char` alongside this record).
The head of `indentStack` is the top of the Rust `Vec`. -/
structure ScanPos where
  line : Nat
  column : Nat
  offset : Nat
  indentStack : List Nat
  pendingDedents : Nat
  atLineStart : Bool
deriving Repr, DecidableEq

/-- Initial scanner state (mirrors `Scanner::new`). -/
def ScanPos.init : ScanPos :=
  ⟨0, 0, 0, [0], 0, true⟩

/-- Current position (mirrors `Scanner::current_position`). -/
def ScanPos.pos (st : ScanPos) : Position :=
  ⟨st.line, st.column, st.offset⟩

/-- Position update for consuming one character (the bookkeeping of
`Scanner::advance`): offset advances by UTF-8 size; `\n` bumps the line
and resets the column; `\r` leaves the column; anything else advances
the column by the character's UTF-16 length. -/
def ScanPos.eat (st : ScanPos) (c : Char) : ScanPos :=
  if c = '\n' then
    { st with offset := st.offset + charUtf8Size c, line := st.line + 1, column := 0 }
  else if c = '\r' then
    { st with offset := st.offset + charUtf8Size c }
  else
    { st with offset := st.offset + charUtf8Size c, column := st.column + charUtf16Len c }

/-- Token construction (mirrors `Scanner::make_token`): span from the
recorded start to the current position. -/
def mkToken (kind : TokenKind) (start : Position) (st : ScanPos) : Token :=
  ⟨kind, ⟨start, st.pos⟩⟩

/-- Whitespace skipping (mirrors `Scanner::skip_whitespace`): spaces,
tabs and carriage returns, never newlines. -/
def skipWhitespace : List Char → ScanPos → List Char × ScanPos
  | [], st => ([], st)
  | c :: rest, st =>
    if c = ' ' || c = '\t' || c = '\r' then skipWhitespace rest (st.eat c)
    else (c :: rest, st)

/-- Leading-space count at line start (mirrors
`Scanner::count_leading_spaces`): returns the space count and whether a
tab was seen; both spaces and tabs are consumed. -/
def countLeadingSpaces : List Char → ScanPos → Nat × Bool × List Char × ScanPos
  | [], st => (0, false, [], st)
  | c :: rest, st =>
    if c = ' ' then
      let (n, tab, cs, st') := countLeadingSpaces rest (st.eat c)
      (n + 1, tab, cs, st')
    else if c = '\t' then
      let (n, _, cs, st') := countLeadingSpaces rest (st.eat c)
      (n, true, cs, st')
    else
      (0, false, c :: rest, st)

/-- Pop loop of `handle_indentation`: drop stack levels greater than the
new indent, counting the pops. -/
def popIndent (stack : List Nat) (spaces : Nat) : List Nat × Nat :=
  match stack with
  | [] => ([], 0)
  | t :: rest =>
    if t ≤ spaces then (t :: rest, 0)
    else
      let (s, n) := popIndent rest spaces
      (s, n + 1)

/-- Indentation handling at line start (mirrors
`Scanner::handle_indentation`). -/
def handleIndentation (cs : List Char) (st : ScanPos) :
    Option Token × List Char × ScanPos :=
  let start := st.pos
  let (spaces, hasTab, cs, st) := countLeadingSpaces cs st
  if hasTab then
    (some (mkToken (.error "Tabs not allowed in indentation") start st), cs, st)
  else
    let currentIndent := st.indentStack.headD 0
    if spaces > currentIndent then
      let st := { st with indentStack := spaces :: st.indentStack }
      (some (mkToken .indent start st), cs, st)
    else if spaces < currentIndent then
      let (stack', popped) := popIndent st.indentStack spaces
      let st := { st with indentStack := stack',
                          pendingDedents := st.pendingDedents + popped }
      if stack'.head? ≠ some spaces ∧ spaces ≠ 0 then
        (some (mkToken
          (.error ("Indentation mismatch: " ++ toString spaces ++
            " spaces does not match any previous level")) start st), cs, st)
      else if st.pendingDedents > 0 then
        (some (mkToken .dedent start st),
          cs, { st with pendingDedents := st.pendingDedents - 1 })
      else
        (none, cs, st)
    else
      (none, cs, st)

/-- Identifier-character test of the scanner (`is_ascii_alphanumeric`
or underscore). -/
def isIdentChar (c : Char) : Bool :=
  c.isAlphanum && c.toNat < 0x80 || c = '_'

/-- Greedy consumption of characters satisfying a predicate, collecting
the consumed text (the `while let Some(ch) = self.peek()` loops of the
scanner combined with source slicing). -/
def takeWhileChars (p : Char → Bool) : List Char → ScanPos → List Char × List Char × ScanPos
  | [], st => ([], [], st)
  | c :: rest, st =>
    if p c then
      let (tk, cs, st') := takeWhileChars p rest (st.eat c)
      (c :: tk, cs, st')
    else ([], c :: rest, st)

/-- Identifier or keyword (mirrors `Scanner::scan_identifier_or_keyword`). -/
def scanIdentifierOrKeyword (cs : List Char) (st : ScanPos) :
    Token × List Char × ScanPos :=
  let start := st.pos
  let (tk, cs, st) := takeWhileChars isIdentChar cs st
  let text := String.mk tk
  let kind :=
    if text = "true" then TokenKind.trueK
    else if text = "false" then TokenKind.falseK
    else if text = "null" then TokenKind.nullK
    else TokenKind.identifier text
  (mkToken kind start st, cs, st)

/-- Character class accepted by the leading-zero string fallback of
`scan_number` (`is_ascii_alphanumeric`, `.` or `_`). -/
def isLeadingZeroTail (c : Char) : Bool :=
  (c.isAlphanum && c.toNat < 0x80) || c = '.' || c = '_'

/-- Number scanning (mirrors `Scanner::scan_number`): optional minus,
the leading-zero-as-string fallback, integer digits, optional fraction,
optional exponent.  The token text is the consumed characters, exactly
as the source slices `source[start_offset..offset]`. -/
def scanNumber (cs : List Char) (st : ScanPos) : Token × List Char × ScanPos :=
  let start := st.pos
  -- optional negative sign
  let (sign, cs, st) :=
    match cs with
    | '-' :: rest => ([('-' : Char)], rest, st.eat '-')
    | _ => ([], cs, st)
  match cs with
  | '0' :: rest =>
    let st0 := st.eat '0'
    match rest with
    | d :: _ =>
      if d.isDigit then
        -- leading zero like "05": consume the alphanumeric tail, string token
        let (tk, cs', st') := takeWhileChars isLeadingZeroTail rest st0
        (mkToken (.string (String.mk (sign ++ ['0'] ++ tk))) start st', cs', st')
      else
        scanNumberTail (sign ++ ['0']) start rest st0
    | [] => scanNumberTail (sign ++ ['0']) start [] st0
  | _ =>
    let (digits, cs, st) := takeWhileChars Char.isDigit cs st
    scanNumberTail (sign ++ digits) start cs st
where
  /-- Fraction and exponent parts of `scan_number`. -/
  scanNumberTail (acc : List Char) (start : Position) (cs : List Char)
      (st : ScanPos) : Token × List Char × ScanPos :=
    -- decimal part: a dot followed by a digit
    let (acc, cs, st) :=
      match cs with
      | '.' :: d :: rest =>
        if d.isDigit then
          let st := st.eat '.'
          let (ds, cs', st') := takeWhileChars Char.isDigit (d :: rest) st
          (acc ++ ['.'] ++ ds, cs', st')
        else (acc, '.' :: d :: rest, st)
      | _ => (acc, cs, st)
    -- exponent part
    let (acc, cs, st) :=
      match cs with
      | e :: rest =>
        if e = 'e' || e = 'E' then
          let st := st.eat e
          let (sgn, cs', st') :=
            match rest with
            | s :: rest' =>
              if s = '+' || s = '-' then ([s], rest', st.eat s)
              else ([], s :: rest', st)
            | [] => ([], [], st)
          let (ds, cs'', st'') := takeWhileChars Char.isDigit cs' st'
          (acc ++ [e] ++ sgn ++ ds, cs'', st'')
        else (acc, e :: rest, st)
      | [] => (acc, [], st)
    (mkToken (.number (String.mk acc)) start st, cs, st)

/-- Quoted string scanning (mirrors `Scanner::scan_quoted_string`),
assuming the opening quote is the head of the stream. -/
def scanQuotedString (cs : List Char) (st : ScanPos) : Token × List Char × ScanPos :=
  let start := st.pos
  match cs with
  | '"' :: rest => scanQuotedLoop [] rest (st.eat '"') start
  | _ => (mkToken (.error "Unterminated string literal") start st, cs, st)
where
  /-- Body loop of `scan_quoted_string`. -/
  scanQuotedLoop (acc : List Char) (cs : List Char) (st : ScanPos)
      (start : Position) : Token × List Char × ScanPos :=
    match cs with
    | [] => (mkToken (.error "Unterminated string literal") start st, [], st)
    | c :: rest =>
      if c = '\n' then
        (mkToken (.error "Unterminated string literal") start st, c :: rest, st)
      else if c = '"' then
        let st := st.eat '"'
        (mkToken (.string (String.mk acc.reverse)) start st, rest, st)
      else if c = '\\' then
        let st := st.eat '\\'
        match rest with
        | [] => (mkToken (.error "Unterminated escape sequence") start st, [], st)
        | e :: rest' =>
          if e = 'n' then scanQuotedLoop ('\n' :: acc) rest' (st.eat e) start
          else if e = 'r' then scanQuotedLoop ('\r' :: acc) rest' (st.eat e) start
          else if e = 't' then scanQuotedLoop ('\t' :: acc) rest' (st.eat e) start
          else if e = '"' then scanQuotedLoop ('"' :: acc) rest' (st.eat e) start
          else if e = '\\' then scanQuotedLoop ('\\' :: acc) rest' (st.eat e) start
          else
            (mkToken (.error ("Invalid escape sequence: \\" ++ String.mk [e])) start st,
              e :: rest', st)
      else
        scanQuotedLoop (c :: acc) rest (st.eat c) start

/-- Number-start test (mirrors `Scanner::is_number_start`): a digit, or
a minus directly followed by a digit. -/
def isNumberStart : List Char → Bool
  | c :: rest =>
    if c.isDigit then true
    else if c = '-' then
      match rest with
      | d :: _ => d.isDigit
      | [] => false
    else false
  | [] => false

/-- Control-character test of `next_token` (ranges 0x00-0x08, 0x0B,
0x0C, 0x0E-0x1F and 0x7F). -/
def isRejectedControl (c : Char) : Bool :=
  (c.toNat ≤ 0x08) || c.toNat = 0x0B || c.toNat = 0x0C ||
  (0x0E ≤ c.toNat && c.toNat ≤ 0x1F) || c.toNat = 0x7F

/-- Token dispatch after dedent and indentation handling (the body of
`Scanner::next_token` from `skip_whitespace` on). -/
def nextTokenCore (cs : List Char) (st : ScanPos) : Token × List Char × ScanPos :=
  let (cs, st) := skipWhitespace cs st
  let start := st.pos
  match cs with
  | [] => (mkToken .eof start st, [], st)
  | c :: rest =>
    if isNumberStart (c :: rest) then scanNumber (c :: rest) st
    else if c = ':' then (mkToken .colon start (st.eat c), rest, st.eat c)
    else if c = ',' then (mkToken .comma start (st.eat c), rest, st.eat c)
    else if c = '[' then (mkToken .leftBracket start (st.eat c), rest, st.eat c)
    else if c = ']' then (mkToken .rightBracket start (st.eat c), rest, st.eat c)
    else if c = '{' then (mkToken .leftBrace start (st.eat c), rest, st.eat c)
    else if c = '}' then (mkToken .rightBrace start (st.eat c), rest, st.eat c)
    else if c = '-' then (mkToken .dash start (st.eat c), rest, st.eat c)
    else if c = '\n' then
      let st' := st.eat c
      (mkToken .newline start st', rest, { st' with atLineStart := true })
    else if c = '"' then scanQuotedString (c :: rest) st
    else if (c.isAlpha && c.toNat < 0x80) || c = '_' then
      scanIdentifierOrKeyword (c :: rest) st
    else if isRejectedControl c then
      (mkToken (.error ("Invalid control character: " ++ toString c.toNat)) start (st.eat c),
        rest, st.eat c)
    else
      (mkToken (.error ("Unexpected character: " ++ String.mk [c])) start (st.eat c),
        rest, st.eat c)

/-- One token (mirrors `Scanner::next_token`): pending dedents first,
then indentation handling at line start, then the core dispatch. -/
def nextToken (cs : List Char) (st : ScanPos) : Token × List Char × ScanPos :=
  if st.pendingDedents > 0 then
    let st' := { st with pendingDedents := st.pendingDedents - 1 }
    (⟨.dedent, Span.point st'.pos⟩, cs, st')
  else if st.atLineStart then
    let st := { st with atLineStart := false }
    match handleIndentation cs st with
    | (some t, cs', st') => (t, cs', st')
    | (none, cs', st') => nextTokenCore cs' st'
  else
    nextTokenCore cs st

/-- Fuel-indexed scan loop (mirrors `Scanner::scan_all`); the fuel bound
never runs out for the fuel chosen by `scanAll`. -/
def scanAllAux : Nat → List Char → ScanPos → List Token
  | 0, _, st => [⟨.eof, Span.point st.pos⟩]
  | fuel + 1, cs, st =>
    let (t, cs', st') := nextToken cs st
    match t.kind with
    | .eof => [t]
    | _ => t :: scanAllAux fuel cs' st'

/-- All tokens of a source string, ending in `Eof` (mirrors
`Scanner::scan_all` from `Scanner::new`). -/
def scanAll (source : String) : List Token :=
  scanAllAux (4 * source.data.length + 8) source.data ScanPos.init

/-- Digit-string evaluation: `some` value when the list is a non-empty
run of ASCII digits (shared core of the Rust `u64`/`i64`/`usize`
`from_str` paths for the sign-stripped remainder). -/
def digitsToNat (l : List Char) : Option Nat :=
  match l with
  | [] => none
  | _ => go l 0
where
  /-- Accumulating loop of `digitsToNat`. -/
  go : List Char → Nat → Option Nat
    | [], acc => some acc
    | c :: rest, acc =>
      if c.isDigit then go rest (acc * 10 + (c.toNat - '0'.toNat)) else none

/-- Digits with the `u64` range check. -/
def u64OfDigits (l : List Char) : Option Nat :=
  (digitsToNat l).bind fun d => if d < 2 ^ 64 then some d else none

/-- Rust `str::parse::<u64>`: optional `+`, digits, range check. -/
def parseU64s (t : String) : Option Nat :=
  match t.data with
  | c :: rest => if c = '+' then u64OfDigits rest else u64OfDigits (c :: rest)
  | [] => u64OfDigits []

/-- Digits after a minus sign, with the `i64` range check (the most
negative value is `-2^63`). -/
def i64OfNegDigits (l : List Char) : Option Int :=
  (digitsToNat l).bind fun d => if d ≤ 2 ^ 63 then some (-(d : Int)) else none

/-- Digits with the positive `i64` range check. -/
def i64OfPosDigits (l : List Char) : Option Int :=
  (digitsToNat l).bind fun d => if d < 2 ^ 63 then some (d : Int) else none

/-- Rust `str::parse::<i64>`: optional sign, digits, range check. -/
def parseI64s (t : String) : Option Int :=
  match t.data with
  | c :: rest =>
    if c = '-' then i64OfNegDigits rest
    else if c = '+' then i64OfPosDigits rest
    else i64OfPosDigits (c :: rest)
  | [] => i64OfPosDigits []

/-- Longest digit run splitter (helper for the `f64` grammar). -/
def digitSpan : List Char → List Char × List Char
  | [] => ([], [])
  | c :: rest =>
    if c.isDigit then
      let (d, r) := digitSpan rest
      (c :: d, r)
    else ([], c :: rest)

/-- Decimal part of the Rust `f64::from_str` grammar after the optional
sign: digits and/or a dot with digits, then an optional exponent with at
least one digit. -/
def f64DecOk (l : List Char) : Bool :=
  let (d1, rest) := digitSpan l
  let (d2, rest, hadDot) :=
    match rest with
    | '.' :: r =>
      let (d, r') := digitSpan r
      (d, r', true)
    | _ => ([], rest, false)
  if d1.isEmpty && (d2.isEmpty || !hadDot) then false
  else
    match rest with
    | [] => true
    | e :: r =>
      if e = 'e' || e = 'E' then
        let r' :=
          match r with
          | s :: r'' => if s = '+' || s = '-' then r'' else s :: r''
          | [] => []
        let (d3, r2) := digitSpan r'
        !d3.isEmpty && r2.isEmpty
      else false

/-- Rust `str::parse::<f64>().is_ok()`: optional sign, then `inf`,
`infinity` or `nan` (case-insensitive) or a decimal number. -/
def f64StrOk (t : String) : Bool :=
  let l :=
    match t.data with
    | '+' :: rest => rest
    | '-' :: rest => rest
    | l => l
  let low := String.mk (l.map Char.toLower)
  low = "inf" || low = "infinity" || low = "nan" || f64DecOk l

/-- Error kinds (mirrors `src/parser/error.rs` `ParseErrorKind`). -/
inductive ParseErrorKind where
  | unexpectedChar
  | unexpectedToken
  | expectedColon
  | expectedValue
  | expectedKey
  | invalidNumber
  | unterminatedString
  | invalidEscape
  | invalidIndent
  | unexpectedEof
  | duplicateKey
  | maxDepthExceeded
  | documentTooLarge
  | tooManyArrayItems
  | tooManyObjectEntries
deriving Repr, DecidableEq

/-- Parse error (mirrors `ParseError`). -/
structure ParseError where
  kind : ParseErrorKind
  span : Span
  context : Option String
deriving Repr, DecidableEq

/-- Membership test for a character in a string's data (Rust
`str::contains(char)`). -/
def containsChar (t : String) (c : Char) : Bool := t.data.contains c

/-- Rust `str::starts_with('-')`. -/
def startsWithDash (t : String) : Bool :=
  match t.data with
  | c :: _ => c = '-'
  | [] => false

/-- Number-text classification (mirrors `Parser::parse_number_value`):
float when the text has `.`, `e` or `E`; `NegInt` via `i64` parsing when
it starts with `-`; otherwise `PosInt` via `u64` parsing. -/
def parseNumberValue (text : String) (span : Span) : Except ParseError NumberValue :=
  if containsChar text '.' || containsChar text 'e' || containsChar text 'E' then
    if f64StrOk text then .ok (.float text)
    else .error ⟨.invalidNumber, span, none⟩
  else if startsWithDash text then
    match parseI64s text with
    | some n => .ok (.negInt n)
    | none => .error ⟨.invalidNumber, span, none⟩
  else
    match parseU64s text with
    | some n => .ok (.posInt n)
    | none => .error ⟨.invalidNumber, span, none⟩

/-- Parser state (mirrors the `Parser` struct fields). -/
structure PState where
  tokens : List Token
  position : Nat
  errors : List ParseError
  recovering : Bool
deriving Repr

/-- Fallback token used when the token list is empty; `scan_all` always
ends the list in `Eof`, so this is unreachable from the entry points. -/
def defaultEofToken : Token := ⟨.eof, Span.point ⟨0, 0, 0⟩⟩

/-- Current token (mirrors `Parser::current`: the token at `position`,
or the last token once past the end). -/
def PState.current (s : PState) : Token :=
  (s.tokens[s.position]?).getD (s.tokens.getLast?.getD defaultEofToken)

/-- One-token lookahead (mirrors `Parser::peek`). -/
def PState.peekT (s : PState) : Option Token := s.tokens[s.position + 1]?

/-- Position increment of `Parser::advance` (saturates at the end). -/
def PState.bump (s : PState) : PState :=
  if s.position < s.tokens.length then { s with position := s.position + 1 } else s

/-- Consume the current token and return it (mirrors `Parser::advance`). -/
def PState.advanceTok (s : PState) : Token × PState :=
  let s' := s.bump
  ((s'.tokens[s'.position - 1]?).getD (s'.tokens.getLast?.getD defaultEofToken), s')

/-- End-of-input test (mirrors `Parser::is_at_end`). -/
def PState.isAtEnd (s : PState) : Bool :=
  match s.current.kind with
  | .eof => true
  | _ => false

/-- Variant tag of a token kind (what `std::mem::discriminant` compares). -/
def TokenKind.tag : TokenKind → Nat
  | .colon => 0
  | .comma => 1
  | .newline => 2
  | .indent => 3
  | .dedent => 4
  | .eof => 5
  | .leftBracket => 6
  | .rightBracket => 7
  | .leftBrace => 8
  | .rightBrace => 9
  | .dash => 10
  | .string _ => 11
  | .number _ => 12
  | .trueK => 13
  | .falseK => 14
  | .nullK => 15
  | .identifier _ => 16
  | .error _ => 17

/-- Kind check by discriminant (mirrors `Parser::check`). -/
def PState.checkKind (s : PState) (k : TokenKind) : Bool :=
  s.current.kind.tag = k.tag

/-- Conditional consumption (mirrors `Parser::match_token`). -/
def PState.matchToken (s : PState) (k : TokenKind) : Bool × PState :=
  if s.checkKind k then (true, s.bump) else (false, s)

/-- Append an error to the list (the `self.errors.push(..)` of the
source; `Vec::push` appends at the end). -/
def PState.pushError (s : PState) (e : ParseError) : PState :=
  { s with errors := s.errors ++ [e] }

/-- Record an error and return it (mirrors `Parser::error`). -/
def PState.mkError (s : PState) (kind : ParseErrorKind) (span : Span) :
    ParseError × PState :=
  let e : ParseError := ⟨kind, span, none⟩
  (e, s.pushError e)

/-- Record an error with context (mirrors `Parser::error_with_context`). -/
def PState.mkErrorCtx (s : PState) (kind : ParseErrorKind) (span : Span)
    (ctx : String) : ParseError × PState :=
  let e : ParseError := ⟨kind, span, some ctx⟩
  (e, s.pushError e)

/-- Loop of `skip_newlines`; the internal fuel `tokens.length + 1`
covers every reachable state because each step advances the position. -/
def skipNewAux : Nat → PState → PState
  | 0, s => s
  | fuel + 1, s =>
    match s.current.kind with
    | .newline => skipNewAux fuel s.bump
    | _ => s

/-- Newline skipping (mirrors `Parser::skip_newlines`). -/
def PState.skipNewlines (s : PState) : PState :=
  skipNewAux (s.tokens.length + 1) s

/-- Loop of `synchronize`; fuel as in `skipNewAux`. -/
def syncAux : Nat → PState → PState
  | 0, s => { s with recovering := false }
  | fuel + 1, s =>
    if s.isAtEnd then { s with recovering := false }
    else
      match s.current.kind with
      | .newline => { s.bump with recovering := false }
      | .dedent => { s with recovering := false }
      | _ => syncAux fuel s.bump

/-- Error synchronisation (mirrors `Parser::synchronize`): set the
recovering flag, skip to the next `Newline`/`Dedent`/`Eof`, consume a
`Newline`, clear the flag. -/
def PState.synchronize (s : PState) : PState :=
  syncAux (s.tokens.length + 1) { s with recovering := true }

/-- Number token parsing (mirrors `Parser::parse_number`); the error
from `parse_number_value` is propagated, not recorded. -/
def parseNumberP (s : PState) : Except ParseError AstNode × PState :=
  let (token, s) := s.advanceTok
  match token.kind with
  | .number text =>
    match parseNumberValue text token.span with
    | .ok v => (.ok (.number v token.span), s)
    | .error e => (.error e, s)
  | _ => (.error ⟨.expectedValue, token.span, none⟩, s)

/-- String token parsing (mirrors `Parser::parse_string`). -/
def parseStringP (s : PState) : Except ParseError AstNode × PState :=
  let (token, s) := s.advanceTok
  match token.kind with
  | .string v => (.ok (.string v token.span), s)
  | _ => (.error ⟨.expectedValue, token.span, none⟩, s)

/-- Keyword parsing (mirrors `Parser::parse_primitive`). -/
def parsePrimitiveP (s : PState) : Except ParseError AstNode × PState :=
  let (token, s) := s.advanceTok
  match token.kind with
  | .trueK => (.ok (.bool true token.span), s)
  | .falseK => (.ok (.bool false token.span), s)
  | .nullK => (.ok (.null token.span), s)
  | _ => (.error ⟨.expectedValue, token.span, none⟩, s)

/-- Collection loop of `parse_unquoted_string`: identifiers, numbers and
strings joined by single spaces, colons and commas appended bare, until
a `Newline`/`Dedent`/`Eof` or any other token. -/
def parseUnquotedLoop : Nat → PState → String → Span → String × Span × PState
  | 0, s, text, endSpan => (text, endSpan, s)
  | fuel + 1, s, text, endSpan =>
    if s.isAtEnd then (text, endSpan, s)
    else
      match s.current.kind with
      | .newline | .dedent | .eof => (text, endSpan, s)
      | .identifier str | .number str | .string str =>
        let text' := if text.isEmpty then str else text ++ " " ++ str
        parseUnquotedLoop fuel s.bump text' s.current.span
      | .colon => parseUnquotedLoop fuel s.bump (text ++ ":") s.current.span
      | .comma => parseUnquotedLoop fuel s.bump (text ++ ",") s.current.span
      | _ => (text, endSpan, s)

/-- Rust `char::is_whitespace` (the Unicode White_Space property). -/
def isRustWhitespace (c : Char) : Bool :=
  let n := c.toNat
  (0x09 ≤ n && n ≤ 0x0D) || n = 0x20 || n = 0x85 || n = 0xA0 || n = 0x1680 ||
  (0x2000 ≤ n && n ≤ 0x200A) || n = 0x2028 || n = 0x2029 || n = 0x202F ||
  n = 0x205F || n = 0x3000

/-- Rust `str::trim`: drop Unicode whitespace from both ends. -/
def rustTrim (s : String) : String :=
  String.mk (((s.data.dropWhile isRustWhitespace).reverse.dropWhile
    isRustWhitespace).reverse)

/-- Unquoted string value (mirrors `Parser::parse_unquoted_string`). -/
def parseUnquotedString (s : PState) : Except ParseError AstNode × PState :=
  let startSpan := s.current.span
  let (text, endSpan, s') := parseUnquotedLoop (s.tokens.length + 1) s "" startSpan
  (.ok (.string (rustTrim text) (Span.merge startSpan endSpan)), s')

/-- Header-only array path of `parse_value` (mirrors
`Parser::parse_array_header`, which just records `UnexpectedToken`). -/
def parseArrayHeaderP (s : PState) : Except ParseError AstNode × PState :=
  let sp := s.current.span
  let (e, s) := s.mkError .unexpectedToken sp
  (.error e, s)

/-- Field-schema loop of `parse_array_with_key` (the `while` between the
braces); fuel bounds the otherwise-unbounded loop, breaking with the
fields collected so far, which is where the loop breaks on well-formed
token streams too. -/
def parseFieldsLoop : Nat → PState → List String → List String × PState
  | 0, s, acc => (acc, s)
  | fuel + 1, s, acc =>
    match s.current.kind with
    | .rightBrace | .eof => (acc, s)
    | _ =>
      let (acc, s) :=
        match s.current.kind with
        | .identifier name => (acc ++ [name], s.bump)
        | _ => (acc, s)
      let s :=
        match s.current.kind with
        | .comma => s.bump
        | _ => s
      parseFieldsLoop fuel s acc

/-- Item loop of `parse_inline_array`: one literal item per step, then
either a comma (continue) or a stop. -/
def parseInlineLoop : Nat → PState → Char → List AstNode →
    Except ParseError (List AstNode) × PState
  | 0, s, _, items => (.ok items, s)
  | fuel + 1, s, delim, items =>
    let sp := s.current.span
    let itemStep : Except ParseError (Option (AstNode × PState)) :=
      match s.current.kind with
      | .string v => .ok (some (.string v sp, s.bump))
      | .number n =>
        match parseNumberValue n sp with
        | .ok v => .ok (some (.number v sp, s.bump))
        | .error e => .error e
      | .trueK => .ok (some (.bool true sp, s.bump))
      | .falseK => .ok (some (.bool false sp, s.bump))
      | .nullK => .ok (some (.null sp, s.bump))
      | .identifier v => .ok (some (.string v sp, s.bump))
      | _ => .ok none
    match itemStep with
    | .error e => (.error e, s)
    | .ok none => (.ok items, s)
    | .ok (some (item, s)) =>
      if delim = ',' && s.checkKind .comma then
        parseInlineLoop fuel s.bump delim (items ++ [item])
      else (.ok (items ++ [item]), s)

/-- Inline array (mirrors `Parser::parse_inline_array`). -/
def parseInlineArray (s : PState) (startSpan : Span) (delim : Char) :
    Except ParseError AstNode × PState :=
  match s.current.kind with
  | .newline | .eof | .dedent => (.ok (.array [] .inline startSpan), s)
  | _ =>
    match parseInlineLoop (s.tokens.length + 1) s delim [] with
    | (.ok items, s) =>
      let endSpan := (items.getLast?.map (·.nodeSpan)).getD startSpan
      (.ok (.array items .inline (Span.merge startSpan endSpan)), s)
    | (.error e, s) => (.error e, s)

/-- Field loop of `parse_tabular_row`: one literal value per field name,
`Null` at the current span when the token is not a literal, a comma
consumed between fields when the delimiter is a comma. -/
def parseRowLoop (delim : Char) (rowStart : Span) :
    List String → PState → Except ParseError (List ObjectEntry) × PState
  | [], s => (.ok [], s)
  | f :: rest, s =>
    let sp := s.current.span
    let step : Except ParseError AstNode × PState :=
      match s.current.kind with
      | .string v => (.ok (.string v sp), s.bump)
      | .number n =>
        match parseNumberValue n sp with
        | .ok v => (.ok (.number v sp), s.bump)
        | .error e => (.error e, s)
      | .identifier v => (.ok (.string v sp), s.bump)
      | .trueK => (.ok (.bool true sp), s.bump)
      | .falseK => (.ok (.bool false sp), s.bump)
      | .nullK => (.ok (.null sp), s.bump)
      | _ => (.ok (.null sp), s)
    match step with
    | (.error e, s) => (.error e, s)
    | (.ok value, s) =>
      let s :=
        if rest ≠ [] && delim = ',' && s.checkKind .comma then s.bump else s
      match parseRowLoop delim rowStart rest s with
      | (.ok entries, s) => (.ok (⟨f, rowStart, value⟩ :: entries), s)
      | (.error e, s) => (.error e, s)

/-- Tabular row (mirrors `Parser::parse_tabular_row`): the row's start
span is used as the key span of every field entry. -/
def parseTabularRow (s : PState) (fields : List String) (delim : Char) :
    Except ParseError AstNode × PState :=
  let startSpan := s.current.span
  match parseRowLoop delim startSpan fields s with
  | (.ok entries, s) =>
    let endSpan := (entries.getLast?.map (·.value.nodeSpan)).getD startSpan
    (.ok (.object entries (Span.merge startSpan endSpan)), s)
  | (.error e, s) => (.error e, s)

/-- Row loop of `parse_tabular_array` (`for _ in 0..expected_count`). -/
def parseTabularRowsLoop : Nat → PState → List String → Char → List AstNode →
    Except ParseError (List AstNode) × PState
  | 0, s, _, _, items => (.ok items, s)
  | count + 1, s, fields, delim, items =>
    if s.isAtEnd || s.checkKind .dedent then (.ok items, s)
    else
      match parseTabularRow s fields delim with
      | (.ok row, s) =>
        let s := if s.checkKind .newline then s.bump else s
        parseTabularRowsLoop count s fields delim (items ++ [row])
      | (.error e, s) => (.error e, s)

/-- Tabular array (mirrors `Parser::parse_tabular_array`). -/
def parseTabularArray (s : PState) (startSpan : Span) (count : Nat)
    (fields : List String) (delim : Char) : Except ParseError AstNode × PState :=
  let s := if s.checkKind .newline then s.bump else s
  let s := if s.checkKind .indent then s.bump else s
  match parseTabularRowsLoop count s fields delim [] with
  | (.ok items, s) =>
    let s := if s.checkKind .dedent then s.bump else s
    let endSpan := (items.getLast?.map (·.nodeSpan)).getD startSpan
    (.ok (.array items .tabular (Span.merge startSpan endSpan)), s)
  | (.error e, s) => (.error e, s)

/-- Array with a `key[N]` header (mirrors `Parser::parse_array_with_key`;
`start_span` is the key's span). -/
def parseArrayCount (s : PState) : Nat × PState :=
  match s.current.kind with
  | .number n => ((parseU64s n).getD 0, s.bump)
  | _ => (0, s)

def parseArrayFields (s : PState) : Option (List String) × PState :=
  match s.current.kind with
  | .rightBracket =>
    let s := s.bump
    match s.current.kind with
    | .leftBrace =>
      let s := s.bump
      let (fs, s) := parseFieldsLoop (s.tokens.length + 2) s []
      let s := if s.checkKind .rightBrace then s.bump else s
      (some fs, s)
    | _ => (none, s)
  | _ =>
    let sp := s.current.span
    let (_, s) := s.mkError .unexpectedToken sp
    (none, s)

def parseArrayDelim (s : PState) : Char × PState :=
  match s.current.kind with
  | .identifier str => if str = "|" then (('|' : Char), s.bump) else ((',' : Char), s)
  | _ => ((',' : Char), s)

def parseArrayDispatch (s : PState) (startSpan : Span) (count : Nat)
    (fields : Option (List String)) (delim : Char) :
    Except ParseError AstNode × PState :=
  let (okCol, s) := s.matchToken .colon
  if !okCol then
    let sp := s.current.span
    let (e, s) := s.mkError .expectedColon sp
    (.error e, s)
  else
    match fields with
    | some fs => parseTabularArray s startSpan count fs delim
    | none => parseInlineArray s startSpan delim

def parseArrayWithKey (s : PState) (startSpan : Span) :
    Except ParseError AstNode × PState :=
  let s := s.bump
  let (count, s) := parseArrayCount s
  let (fields, s) := parseArrayFields s
  let (delim, s) := parseArrayDelim s
  parseArrayDispatch s startSpan count fields delim

mutual

/-- Value dispatcher (mirrors `Parser::parse_value`). -/
def parseValue : Nat → PState → Except ParseError AstNode × PState
  | 0, s => (.error ⟨.expectedValue, s.current.span, none⟩, s)
  | fuel + 1, s =>
    match s.current.kind with
    | .error msg =>
      let sp := s.current.span
      let (e, s) := s.mkErrorCtx .unexpectedToken sp msg
      (.error e, s.bump)
    | .string _ => parseStringP s
    | .number _ => parseNumberP s
    | .trueK | .falseK | .nullK => parsePrimitiveP s
    | .identifier _ =>
      match s.peekT with
      | some next =>
        match next.kind with
        | .leftBracket => parseArrayHeaderP s
        | .colon => parseUnquotedString s
        | _ => parseUnquotedString s
      | none => parseUnquotedString s
    | .indent => parseNestedObject fuel s
    | .dash => parseExpandedArray fuel s
    | .newline =>
      let s := s.bump
      match s.current.kind with
      | .indent => parseNestedObject fuel s
      | .dash => parseExpandedArray fuel s
      | _ => (.ok (.null (Span.point s.current.span.start)), s)
    | .eof => (.ok (.null (Span.point s.current.span.start)), s)
    | _ =>
      let sp := s.current.span
      let (e, s) := s.mkError .expectedValue sp
      (.error e, s)

/-- Nested object after an `Indent` (mirrors `Parser::parse_nested_object`). -/
def parseNestedObject : Nat → PState → Except ParseError AstNode × PState
  | 0, s => (.error ⟨.expectedValue, s.current.span, none⟩, s)
  | fuel + 1, s =>
    let startSpan := s.current.span
    let s := if s.checkKind .indent then s.bump else s
    match s.current.kind with
    | .dash => parseExpandedArray fuel s
    | _ =>
      match parseObject fuel s startSpan with
      | (res, s) =>
        let s := if s.checkKind .dedent then s.bump else s
        (res, s)

/-- Object at the current indentation level (mirrors
`Parser::parse_object`; its body has no failing exit, so the result is
always `ok`). -/
def parseObject : Nat → PState → Span → Except ParseError AstNode × PState
  | 0, s, startSpan => (.ok (.object [] (Span.merge startSpan startSpan)), s)
  | fuel + 1, s, startSpan =>
    let (entries, s) := parseObjectLoop fuel s []
    let endSpan := (entries.getLast?.map (·.value.nodeSpan)).getD startSpan
    (.ok (.object entries (Span.merge startSpan endSpan)), s)

/-- Entry loop of `parse_object`: skip newlines, stop at
`Dedent`/`Eof`/non-key, parse an entry, on failure push the error when
not recovering and synchronise. -/
def parseObjectLoop : Nat → PState → List ObjectEntry → List ObjectEntry × PState
  | 0, s, acc => (acc, s)
  | fuel + 1, s, acc =>
    if s.isAtEnd then (acc, s)
    else
      let s := s.skipNewlines
      match s.current.kind with
      | .dedent | .eof => (acc, s)
      | .identifier _ | .string _ =>
        match parseObjectEntry fuel s with
        | (.ok e, s) =>
          let s := if s.checkKind .newline then s.bump else s
          parseObjectLoop fuel s (acc ++ [e])
        | (.error err, s) =>
          let s := if !s.recovering then s.pushError err else s
          let s := s.synchronize
          parseObjectLoop fuel s acc
      | _ => (acc, s)

/-- Single `key: value` entry (mirrors `Parser::parse_object_entry`). -/
def parseObjectEntry : Nat → PState → Except ParseError ObjectEntry × PState
  | 0, s => (.error ⟨.expectedKey, s.current.span, none⟩, s)
  | fuel + 1, s =>
    let keyToken := s.current
    match keyToken.kind with
    | .identifier name | .string name =>
      let s := s.bump
      match s.current.kind with
      | .leftBracket =>
        match parseArrayWithKey s keyToken.span with
        | (.ok v, s) => (.ok ⟨name, keyToken.span, v⟩, s)
        | (.error e, s) => (.error e, s)
      | _ =>
        let (okCol, s) := s.matchToken .colon
        if !okCol then
          let sp := s.current.span
          let (e, s) := s.mkError .expectedColon sp
          (.error e, s)
        else
          match parseValue fuel s with
          | (.ok v, s) => (.ok ⟨name, keyToken.span, v⟩, s)
          | (.error e, s) => (.error e, s)
    | _ =>
      let (e, s) := s.mkError .expectedKey keyToken.span
      (.error e, s)

/-- Expanded (dash) array (mirrors `Parser::parse_expanded_array`). -/
def parseExpandedArray : Nat → PState → Except ParseError AstNode × PState
  | 0, s => (.ok (.array [] .expanded (Span.merge s.current.span s.current.span)), s)
  | fuel + 1, s =>
    let startSpan := s.current.span
    match parseExpandedLoop fuel s [] with
    | (.ok items, s) =>
      let endSpan := (items.getLast?.map (·.nodeSpan)).getD startSpan
      (.ok (.array items .expanded (Span.merge startSpan endSpan)), s)
    | (.error e, s) => (.error e, s)

/-- Item loop of `parse_expanded_array`. -/
def parseExpandedLoop : Nat → PState → List AstNode →
    Except ParseError (List AstNode) × PState
  | 0, s, acc => (.ok acc, s)
  | fuel + 1, s, acc =>
    match s.current.kind with
    | .dash =>
      let s := s.bump
      let itemRes : Except ParseError AstNode × PState :=
        match s.current.kind with
        | .newline =>
          let s := s.bump
          match s.current.kind with
          | .indent => parseNestedObject fuel s
          | _ => (.ok (.null (Span.point s.current.span.start)), s)
        | .eof | .dedent => (.ok (.null (Span.point s.current.span.start)), s)
        | _ => parseValue fuel s
      match itemRes with
      | (.error e, s) => (.error e, s)
      | (.ok item, s) =>
        let s := if s.checkKind .newline then s.bump else s
        match s.current.kind with
        | .dedent => (.ok (acc ++ [item]), s)
        | _ => parseExpandedLoop fuel s (acc ++ [item])
    | _ => (.ok acc, s)

end

/-- Document entry point (mirrors `Parser::parse_document`). -/
def parseDocument (fuel : Nat) (s : PState) : Except ParseError AstNode × PState :=
  let startSpan := s.current.span
  let s := s.skipNewlines
  if s.isAtEnd then
    (.ok (.document [] (Span.point startSpan.start)), s)
  else
    match parseObject fuel s startSpan with
    | (.ok root, s) =>
      (.ok (.document [root] (Span.merge startSpan root.nodeSpan)), s)
    | (.error e, s) => (.error e, s)

/-- Fresh parser state over a source string (mirrors `Parser::new`). -/
def parserInit (source : String) : PState :=
  ⟨scanAll source, 0, [], false⟩

/-- Fuel passed to the mutual parser block by the entry points; the
mutual recursion descends at most a few levels per consumed token, so
this bound is never reached on scanner-produced token lists. -/
def parseFuel (s : PState) : Nat := 8 * s.tokens.length + 32

/-- Strict entry point (mirrors the crate-level `parse`): the first
recorded error if any, otherwise the document. -/
def parse (source : String) : Except ParseError AstNode :=
  let s := parserInit source
  let (result, s') := parseDocument (parseFuel s) s
  match s'.errors.head? with
  | some e => .error e
  | none => result

/-- Recovering entry point (mirrors the crate-level `parse_with_errors`). -/
def parseWithErrors (source : String) : Option AstNode × List ParseError :=
  let s := parserInit source
  let (result, s') := parseDocument (parseFuel s) s
  match result with
  | .ok ast => (some ast, s'.errors)
  | .error _ => if s'.errors.isEmpty then (none, []) else (none, s'.errors)

/-- Total UTF-8 byte length of a line (Rust `str::len`). -/
def utf8Len (l : List Char) : Nat := (l.map charUtf8Size).sum

/-- Total UTF-16 code-unit length of a line. -/
def utf16Len (l : List Char) : Nat := (l.map charUtf16Len).sum

/-- Byte-prefix extraction, modelling Rust string slicing
`&line_text[..k]`: `some` prefix when `k` is a character boundary,
`none` when `k` falls inside a character (where Rust panics). -/
def takeBytes (l : List Char) (k : Nat) : Option (List Char) :=
  if k = 0 then some []
  else
    match l with
    | [] => none
    | c :: rest =>
      if charUtf8Size c ≤ k then
        (takeBytes rest (k - charUtf8Size c)).map (c :: ·)
      else none

/-- UTF-8 column to UTF-16 column (mirrors `utf16.rs`
`utf8_to_utf16_col`): past the end of the line, the whole line's UTF-16
length; otherwise the UTF-16 length of the byte-sliced prefix, `none`
standing for the slicing panic at a non-boundary offset. -/
def utf8ToUtf16Col (l : List Char) (k : Nat) : Option Nat :=
  if utf8Len l ≤ k then some (utf16Len l)
  else (takeBytes l k).map utf16Len

/-- Loop of `utf16_to_utf8_col`. -/
def utf16ToUtf8Loop (w : Nat) : List Char → Nat → Nat → Nat
  | [], _, off8 => off8
  | c :: rest, cnt16, off8 =>
    if w ≤ cnt16 then off8
    else utf16ToUtf8Loop w rest (cnt16 + charUtf16Len c) (off8 + charUtf8Size c)

/-- UTF-16 column to UTF-8 column (mirrors `utf16.rs`
`utf16_to_utf8_col`): accumulate characters until the UTF-16 count
reaches the target. -/
def utf16ToUtf8Col (l : List Char) (w : Nat) : Nat :=
  utf16ToUtf8Loop w l 0 0

/-- Splitting loop of Rust `str::lines`: split at `\n`, stripping one
`\r` directly before each `\n`. -/
def rustLinesAux : List Char → List Char → List (List Char)
  | [], acc => [acc.reverse]
  | '\n' :: rest, acc =>
    let seg := match acc with
      | '\r' :: acc' => acc'.reverse
      | _ => acc.reverse
    seg :: rustLinesAux rest []
  | c :: rest, acc => rustLinesAux rest (c :: acc)

/-- Rust `str::lines`: the trailing line ending is optional (an empty
final segment is not yielded). -/
def rustLines (t : String) : List (List Char) :=
  let parts := rustLinesAux t.data []
  match parts.getLast? with
  | some [] => parts.dropLast
  | _ => parts

/-- Loop of `calculate_offset` (from `src/lsp/hover.rs`, the function
`references.rs` and `rename.rs` import under the same name): walk
`char_indices`, returning the byte index of the first character of the
requested line whose byte column reaches `column`. -/
def calculateOffsetAux (line column : Nat) :
    List Char → Nat → Nat → Nat → Option Nat
  | [], idx, _, currentLine => if currentLine = line then some idx else none
  | c :: rest, idx, lineStart, currentLine =>
    if currentLine = line && column ≤ idx - lineStart then some idx
    else if c = '\n' then
      if currentLine = line then none
      else
        calculateOffsetAux line column rest (idx + charUtf8Size c)
          (idx + charUtf8Size c) (currentLine + 1)
    else
      calculateOffsetAux line column rest (idx + charUtf8Size c) lineStart currentLine

/-- Byte offset of a (line, UTF-8 column) position (mirrors
`calculate_offset`): `none` when the line does not exist or the column
is past the end of the line. -/
def calculate_offset (source : String) (line column : Nat) : Option Nat :=
  calculateOffsetAux line column source.data 0 0 0

/-- Path element of a cursor descent (mirrors `ast_utils.rs`
`NodePathEntry`; the embedding stores nodes by value rather than by
reference). -/
structure NodePathEntry where
  node : AstNode
  key : Option String
  index : Option Nat
deriving Repr

/-- Result of the cursor lookup (mirrors `NodeAtPosition`). -/
structure NodeAtPosition where
  path : List NodePathEntry
  node : AstNode
  onKey : Option ObjectEntry
deriving Repr

/-- Child search of the descent (mirrors `find_child_containing`). -/
def findChildContaining (children : List AstNode) (pos : Position) : Option AstNode :=
  children.find? (fun c => c.nodeSpan.containsPos pos)

/-- Entry search of the descent (mirrors `find_entry_containing`): the
first entry whose key span or value span contains the position, and
whether it was the key span. -/
def findEntryContaining (entries : List ObjectEntry) (pos : Position) :
    Option (ObjectEntry × Bool) :=
  match entries.find?
      (fun e => e.keySpan.containsPos pos || e.value.nodeSpan.containsPos pos) with
  | some e => some (e, e.keySpan.containsPos pos)
  | none => none

/-- Item search of the descent (mirrors `find_item_containing`). -/
def findItemContaining (items : List AstNode) (pos : Position) : Option (Nat × AstNode) :=
  go items 0
where
  /-- Indexed scan. -/
  go : List AstNode → Nat → Option (Nat × AstNode)
    | [], _ => none
    | c :: rest, i =>
      if c.nodeSpan.containsPos pos then some (i, c) else go rest (i + 1)

/-- Descent loop of `find_node_at_position`; the fuel bounds the depth
and running out stops at the current node, like the loop's `break`. -/
def findLoop : Nat → AstNode → Position → List NodePathEntry →
    List NodePathEntry × AstNode × Option ObjectEntry
  | 0, current, _, path => (path, current, none)
  | fuel + 1, current, pos, path =>
    match current with
    | .document children sp =>
      match findChildContaining children pos with
      | some child => findLoop fuel child pos (path ++ [⟨child, none, none⟩])
      | none => (path, .document children sp, none)
    | .object entries sp =>
      match findEntryContaining entries pos with
      | some (entry, true) => (path, .object entries sp, some entry)
      | some (entry, false) =>
        findLoop fuel entry.value pos (path ++ [⟨entry.value, some entry.key, none⟩])
      | none => (path, .object entries sp, none)
    | .array items form sp =>
      match findItemContaining items pos with
      | some (idx, item) => findLoop fuel item pos (path ++ [⟨item, none, some idx⟩])
      | none => (path, .array items form sp, none)
    | n => (path, n, none)

/-- Cursor lookup (mirrors `ast_utils.rs` `find_node_at_position`). -/
def findNodeAtPosition (fuel : Nat) (root : AstNode) (line column offset : Nat) :
    Option NodeAtPosition :=
  let pos : Position := ⟨line, column, offset⟩
  if root.nodeSpan.containsPos pos then
    let (path, node, onKey) := findLoop fuel root pos [⟨root, none, none⟩]
    some ⟨path, node, onKey⟩
  else none

/-- Modelled from the spec: `collect_all_keys` is imported by
`references.rs` and `rename.rs` from `lsp::ast_utils` but is absent from
the sources provided; the spec (§4.3) defines it as "a whole-tree
traversal yielding every `(key, key_span)` pair".  The traversal below
yields the pairs in document order, each object entry's pair before the
pairs inside its value. -/
def collectAllKeys : Nat → AstNode → List (String × Span)
  | 0, _ => []
  | fuel + 1, node =>
    match node with
    | .document children _ => (children.map (collectAllKeys fuel)).flatten
    | .object entries _ =>
      (entries.map (fun e => (e.key, e.keySpan) :: collectAllKeys fuel e.value)).flatten
    | .array items _ _ => (items.map (collectAllKeys fuel)).flatten
    | _ => []

/-- Key occurrence record (mirrors `references.rs` `KeyReference`). -/
structure KeyReference where
  keyName : String
  span : Span
  isDefinition : Bool
deriving Repr, DecidableEq

/-- Comparator of the references sort (`sort_by` on start line, then
start column). -/
def refLe (a b : KeyReference) : Bool :=
  a.span.start.line < b.span.start.line ||
    (a.span.start.line = b.span.start.line &&
      a.span.start.column ≤ b.span.start.column)

/-- Stable insertion into a sorted list (the new element goes after
existing equal elements, as in `Vec::sort_by`, which is stable). -/
def insertRef (x : KeyReference) : List KeyReference → List KeyReference
  | [] => [x]
  | y :: ys => if refLe y x then y :: insertRef x ys else x :: y :: ys

/-- Stable sort by `refLe`, modelling `Vec::sort_by`; a stable sort is
determined up to extensional equality by its comparator, so insertion
sort is a faithful model. -/
def sortRefs (l : List KeyReference) : List KeyReference :=
  l.foldl (fun acc x => insertRef x acc) []

/-- References service (mirrors `references.rs`
`find_references_at_position`). -/
def findReferencesAtPosition (fuel : Nat) (ast : AstNode) (text : String)
    (line col : Nat) (includeDeclaration : Bool) : List KeyReference :=
  match calculate_offset text line col with
  | none => []
  | some off =>
    match findNodeAtPosition fuel ast line col off with
    | none => []
    | some info =>
      match info.onKey with
      | none => []
      | some entry =>
        let keyName := entry.key
        let cursorPos : Position := ⟨line, col, off⟩
        let allKeys := collectAllKeys fuel ast
        let references :=
          (allKeys.filter (fun kv => kv.1 = keyName)).map
            (fun kv => KeyReference.mk kv.1 kv.2 true)
        let references := sortRefs references
        if !includeDeclaration then
          references.filter (fun r => !(r.span.containsPos cursorPos))
        else references

/-- Semantic token type (mirrors `semantic_tokens.rs` `ToonTokenType`). -/
inductive ToonTokenType where
  | property
  | stringT
  | numberT
  | keyword
  | operator
deriving Repr, DecidableEq

/-- Legend index of a token type (mirrors `ToonTokenType::as_u32`). -/
def ToonTokenType.toU32 : ToonTokenType → Nat
  | .property => 0
  | .stringT => 1
  | .numberT => 2
  | .keyword => 3
  | .operator => 4

/-- Modifier bit for a definition site (`DEFINITION = 1 << 0`). -/
def modDefinition : Nat := 1

/-- Modifier bit for read-only literals (`READONLY = 1 << 1`). -/
def modReadonly : Nat := 2

/-- Absolute-position semantic token (mirrors `SemanticToken`). -/
structure SemanticToken where
  line : Nat
  startCol : Nat
  length : Nat
  tokenType : ToonTokenType
  modifiers : Nat
deriving Repr, DecidableEq

/-- Token from a span (mirrors `SemanticToken::from_span`): length in
bytes, position from the span's start. -/
def SemanticToken.fromSpan (span : Span) (t : ToonTokenType) (m : Nat) : SemanticToken :=
  ⟨span.start.line, span.start.column, span.stop.offset - span.start.offset, t, m⟩

/-- Traversal of `collect_semantic_tokens`/`visit_node`: keys become
`Property` with `DEFINITION`, literals their type with `READONLY`. -/
def visitNode : Nat → AstNode → List SemanticToken
  | 0, _ => []
  | fuel + 1, node =>
    match node with
    | .document children _ => (children.map (visitNode fuel)).flatten
    | .object entries _ =>
      (entries.map (fun e =>
        SemanticToken.fromSpan e.keySpan .property modDefinition :: visitNode fuel e.value)).flatten
    | .array items _ _ => (items.map (visitNode fuel)).flatten
    | .string _ sp => [SemanticToken.fromSpan sp .stringT modReadonly]
    | .number _ sp => [SemanticToken.fromSpan sp .numberT modReadonly]
    | .bool _ sp => [SemanticToken.fromSpan sp .keyword modReadonly]
    | .null sp => [SemanticToken.fromSpan sp .keyword modReadonly]

/-- Semantic-token collection (mirrors `collect_semantic_tokens`). -/
def collectSemanticTokens (fuel : Nat) (ast : AstNode) : List SemanticToken :=
  visitNode fuel ast

/-- Delta-encoded wire token (mirrors the `tower_lsp` `SemanticToken`
record built by `encode_tokens`). -/
structure LspSemanticToken where
  deltaLine : Nat
  deltaStart : Nat
  length : Nat
  tokenType : Nat
  tokenModifiersBitset : Nat
deriving Repr, DecidableEq

/-- Panic-defaulting wrapper over `utf8ToUtf16Col` used by the encoder;
the spans the encoder receives start and end on character boundaries, so
the `none` (panic) case is unreachable there. -/
def utf8ToUtf16ColD (l : List Char) (k : Nat) : Nat :=
  (utf8ToUtf16Col l k).getD 0

/-- Loop of `encode_tokens` carrying the previous token's line and
column. -/
def encodeLoop (lines : List (List Char)) :
    List SemanticToken → Nat → Nat → List LspSemanticToken
  | [], _, _ => []
  | t :: rest, prevLine, prevCol =>
    let deltaLine := t.line - prevLine
    let lineText := (lines[t.line]?).getD []
    let utf16Col := utf8ToUtf16ColD lineText t.startCol
    let utf16Length := utf8ToUtf16ColD lineText (t.startCol + t.length) - utf16Col
    let utf16DeltaCol :=
      if deltaLine = 0 then utf16Col - utf8ToUtf16ColD lineText prevCol
      else utf16Col
    ⟨deltaLine, utf16DeltaCol, utf16Length, t.tokenType.toU32, t.modifiers⟩ ::
      encodeLoop lines rest t.line t.startCol

/-- Delta encoding (mirrors `encode_tokens`). -/
def encodeTokens (tokens : List SemanticToken) (text : String) : List LspSemanticToken :=
  match tokens with
  | [] => []
  | _ => encodeLoop (rustLines text) tokens 0 0

/-- Formatting options (mirrors `formatting.rs` `ToonFormattingOptions`). -/
structure ToonFormattingOptions where
  indentSize : Nat
  useTabs : Bool
deriving Repr, DecidableEq

/-- Default options: 2-space indentation (mirrors the `Default` impl). -/
def defaultFormattingOptions : ToonFormattingOptions := ⟨2, false⟩

/-- Indentation string for a nesting level (mirrors
`FormattingContext::indent`). -/
def indentOf (opts : ToonFormattingOptions) (level : Nat) : String :=
  if opts.useTabs then String.mk (List.replicate level '\t')
  else String.mk (List.replicate (level * opts.indentSize) ' ')

/-- Rust `str::starts_with(' ')`. -/
def startsWithSpace (s : String) : Bool :=
  match s.data with
  | ' ' :: _ => true
  | _ => false

/-- Rust `str::ends_with(' ')`. -/
def endsWithSpace (s : String) : Bool :=
  match s.data.getLast? with
  | some ' ' => true
  | _ => false

/-- Quoting test (mirrors `formatting.rs` `needs_quotes`). -/
def needsQuotes (s : String) : Bool :=
  s.isEmpty || containsChar s ':' || containsChar s ',' ||
  containsChar s '[' || containsChar s ']' ||
  containsChar s '{' || containsChar s '}' ||
  containsChar s '|' || containsChar s '-' ||
  containsChar s '"' || containsChar s '\\' ||
  startsWithSpace s || endsWithSpace s ||
  s = "true" || s = "false" || s = "null" ||
  f64StrOk s

/-- Escaping (mirrors `escape_string`: backslashes then quotes; the two
sequential `replace` calls equal this per-character map). -/
def escapeString (s : String) : String :=
  String.mk (s.data.flatMap fun c =>
    if c = '\\' then ['\\', '\\']
    else if c = '"' then ['\\', '"']
    else [c])

/-- Number rendering (mirrors `format_number`); the float branch is the
raw source text because `f64` formatting is outside the embedding, and
no claim exercises it. -/
def formatNumber : NumberValue → String
  | .posInt n => toString n
  | .negInt n => toString n
  | .float raw => raw

/-- Node formatting.  This one function carries the bodies of the four
mutually recursive source functions `format_node`, `format_object_entry`,
`format_array` and `format_tabular_row` (inlined so that the recursion
is structural on the fuel): an object entry is `indent ++ key ++ ": "`
with nested objects and expanded/tabular arrays on the next line one
level deeper; an inline array is `[v1, v2, …]`; an expanded array is
`- v` lines; a tabular array renders each object row as
`| v1 | v2 | … |` and a non-object row as nothing. -/
def formatNode : Nat → AstNode → ToonFormattingOptions → Nat → Bool → String
  | 0, _, _, _, _ => ""
  | fuel + 1, node, opts, level, _isValue =>
    match node with
    | .document children _ =>
      String.join (children.map (fun c => formatNode fuel c opts level false))
    | .object entries _ =>
      String.join (entries.map (fun e =>
        indentOf opts level ++ e.key ++ ": " ++
          match e.value with
          | .object _ _ => "\n" ++ formatNode fuel e.value opts (level + 1) false
          | .array _ .expanded _ => "\n" ++ formatNode fuel e.value opts (level + 1) true
          | .array _ .tabular _ => "\n" ++ formatNode fuel e.value opts (level + 1) true
          | _ => formatNode fuel e.value opts level true ++ "\n"))
    | .array items form _ =>
      match form with
      | .inline =>
        "[" ++ String.intercalate ", "
          (items.map (fun i => formatNode fuel i opts level true)) ++ "]"
      | .expanded =>
        String.join (items.map (fun i =>
          indentOf opts level ++ "- " ++ formatNode fuel i opts level true ++ "\n"))
      | .tabular =>
        String.join (items.map (fun i =>
          match i with
          | .object entries _ =>
            indentOf opts level ++ "| " ++
              String.intercalate " | "
                (entries.map (fun e => formatNode fuel e.value opts level true)) ++
              " |" ++ "\n"
          | _ => ""))
    | .string v _ =>
      if needsQuotes v then "\"" ++ escapeString v ++ "\"" else v
    | .number v _ => formatNumber v
    | .bool b _ => if b then "true" else "false"
    | .null _ => "null"

/-- Document formatting (mirrors `format_document`): format from level
0, ensure a trailing newline; fuel bounds the AST depth. -/
def formatDocument (fuel : Nat) (ast : AstNode)
    (opts : ToonFormattingOptions) : Option String :=
  let out := formatNode fuel ast opts 0 false
  let out :=
    match out.data.getLast? with
    | some '\n' => out
    | _ => out ++ "\n"
  some out

/-- Per-document server state (mirrors `state.rs` `DocumentState`). -/
structure DocumentState where
  text : String
  version : Int
  ast : Option AstNode
  errors : List ParseError

/-- Creation by parsing (mirrors `DocumentState::new`). -/
def DocumentState.new (text : String) (version : Int) : DocumentState :=
  let (ast, errors) := parseWithErrors text
  ⟨text, version, ast, errors⟩

/-- Full-text update with re-parse (mirrors `DocumentState::update`). -/
def DocumentState.update (_s : DocumentState) (text : String) (version : Int) :
    DocumentState :=
  let (ast, errors) := parseWithErrors text
  ⟨text, version, ast, errors⟩

/-- Replay of a sequence of full-text edits. -/
def applyUpdates (s : DocumentState) (us : List (String × Int)) : DocumentState :=
  us.foldl (fun st u => st.update u.1 u.2) s

/-- AST extraction for concrete statements: the parsed tree of a source
string, defaulting to a bare null node (unreachable for the inputs used,
where `parse_with_errors` returns `some`). -/
def parsedAst (s : String) : AstNode :=
  ((parseWithErrors s).1).getD (.null (Span.point ⟨0, 0, 0⟩))

/-- First number value in a tree, in document order; used to state
concrete facts about parsed literals. -/
def firstNumberValue : Nat → AstNode → Option NumberValue
  | 0, _ => none
  | fuel + 1, node =>
    match node with
    | .document children _ => children.findSome? (firstNumberValue fuel)
    | .object entries _ => (entries.map (·.value)).findSome? (firstNumberValue fuel)
    | .array items _ _ => items.findSome? (firstNumberValue fuel)
    | .number v _ => some v
    | _ => none

/-- Array form of the first top-level entry's value, when it is an
array; used to state which presentation tag a parse produced. -/
def firstValueForm (ast : Option AstNode) : Option ArrayForm :=
  match ast with
  | some (.document ((.object (e :: _) _) :: _) _) =>
    match e.value with
    | .array _ form _ => some form
    | _ => none
  | _ => none

/-- Cursor-key accessor for reference statements: the object entry whose
key span contains the cursor, as computed by `find_node_at_position`. -/
def cursorKey (fuel : Nat) (ast : AstNode) (line col off : Nat) : Option ObjectEntry :=
  match findNodeAtPosition fuel ast line col off with
  | some info => info.onKey
  | none => none

/-- Synchronisation invariant of the document store: the stored AST and
error list are exactly what parsing the stored text yields. -/
def stateSynced (s : DocumentState) : Prop :=
  (s.ast, s.errors) = parseWithErrors s.text

/-- Range invariant of a numeric value: a `PosInt` is a non-negative
integer in the `u64` range, a `NegInt` is a non-positive integer in the
`i64` range. -/
def numValOk : NumberValue → Prop
  | .posInt n => n < 2 ^ 64
  | .negInt n => -(2 ^ 63) ≤ n ∧ n ≤ 0
  | .float _ => True

/-- Tree-wide number invariant: every `Number` node of the tree
satisfies `numValOk`. -/
inductive NodeOk : AstNode → Prop where
  | doc : ∀ children span, (∀ c ∈ children, NodeOk c) → NodeOk (.document children span)
  | obj : ∀ entries span, (∀ e ∈ entries, NodeOk (ObjectEntry.value e)) →
      NodeOk (.object entries span)
  | arr : ∀ items form span, (∀ i ∈ items, NodeOk i) → NodeOk (.array items form span)
  | str : ∀ v span, NodeOk (.string v span)
  | num : ∀ v span, numValOk v → NodeOk (.number v span)
  | boolOk : ∀ b span, NodeOk (.bool b span)
  | nullOk : ∀ span, NodeOk (.null span)

end Toon

open Toon

/-- Every character occupies at least one UTF-8 byte. -/
theorem one_le_charUtf8Size (c : Char) : 1 ≤ charUtf8Size c := by
  unfold charUtf8Size
  split
  · exact Nat.le_refl 1
  · split
    · omega
    · split <;> omega

/-- Every character occupies at least one UTF-16 code unit. -/
theorem one_le_charUtf16Len (c : Char) : 1 ≤ charUtf16Len c := by
  unfold charUtf16Len
  split <;> omega

/-- Length rule for the empty line. -/
@[simp] theorem utf8Len_nil : utf8Len [] = 0 := rfl

/-- Length rule for a cons. -/
@[simp] theorem utf8Len_cons (c : Char) (l : List Char) :
    utf8Len (c :: l) = charUtf8Size c + utf8Len l := by
  simp [utf8Len]

/-- UTF-16 length rule for the empty line. -/
@[simp] theorem utf16Len_nil : utf16Len [] = 0 := rfl

/-- UTF-16 length rule for a cons. -/
@[simp] theorem utf16Len_cons (c : Char) (l : List Char) :
    utf16Len (c :: l) = charUtf16Len c + utf16Len l := by
  simp [utf16Len]

/-- A line of zero UTF-8 bytes is empty. -/
theorem utf8Len_eq_zero {s : List Char} (h : utf8Len s = 0) : s = [] := by
  cases s with
  | nil => rfl
  | cons c rest =>
    have := one_le_charUtf8Size c
    simp at h
    omega

/-- Slicing a line at the byte length of a prefix recovers that prefix
(character boundaries never panic). -/
theorem takeBytes_prefix (p s : List Char) :
    takeBytes (p ++ s) (utf8Len p) = some p := by
  induction p with
  | nil =>
    rw [takeBytes.eq_def]
    simp
  | cons c p' ih =>
    have h1 := one_le_charUtf8Size c
    show takeBytes (c :: (p' ++ s)) (utf8Len (c :: p')) = some (c :: p')
    rw [takeBytes.eq_def, utf8Len_cons, if_neg (by omega)]
    show (if charUtf8Size c ≤ charUtf8Size c + utf8Len p' then
        (takeBytes (p' ++ s) (charUtf8Size c + utf8Len p' - charUtf8Size c)).map (c :: ·)
      else none) = some (c :: p')
    rw [if_pos (by omega)]
    rw [show charUtf8Size c + utf8Len p' - charUtf8Size c = utf8Len p' by omega]
    rw [ih]
    rfl

/-- The conversion loop stops immediately once the count has reached
the target. -/
theorem utf16Loop_le (l : List Char) (w cnt off : Nat) (h : w ≤ cnt) :
    utf16ToUtf8Loop w l cnt off = off := by
  cases l with
  | nil => rfl
  | cons c rest => simp [utf16ToUtf8Loop, h]

/-- The conversion loop consumes exactly a prefix whose UTF-16 length
is the target. -/
theorem utf16Loop_prefix (p s : List Char) :
    ∀ cnt off, utf16ToUtf8Loop (cnt + utf16Len p) (p ++ s) cnt off = off + utf8Len p := by
  induction p with
  | nil =>
    intro cnt off
    simpa using utf16Loop_le s (cnt + utf16Len []) cnt off (by simp)
  | cons c p' ih =>
    intro cnt off
    have h1 := one_le_charUtf16Len c
    show utf16ToUtf8Loop (cnt + utf16Len (c :: p')) (c :: (p' ++ s)) cnt off = _
    rw [utf16Len_cons]
    unfold utf16ToUtf8Loop
    rw [if_neg (by omega)]
    rw [show cnt + (charUtf16Len c + utf16Len p') = (cnt + charUtf16Len c) + utf16Len p' by omega]
    rw [ih (cnt + charUtf16Len c) (off + charUtf8Size c)]
    simp [Nat.add_assoc]

/-- The conversion loop rounds a target that falls strictly inside a
character up to the end of that character. -/
theorem utf16Loop_round (w : Nat) (c : Char) :
    ∀ (p s : List Char) (cnt off : Nat), cnt + utf16Len p < w →
      w ≤ cnt + utf16Len p + charUtf16Len c →
      utf16ToUtf8Loop w (p ++ c :: s) cnt off = off + utf8Len p + charUtf8Size c := by
  intro p
  induction p with
  | nil =>
    intro s cnt off h1 h2
    simp only [List.nil_append, utf16Len_nil, Nat.add_zero] at h1 h2 ⊢
    unfold utf16ToUtf8Loop
    rw [if_neg (by omega)]
    simpa using utf16Loop_le s w (cnt + charUtf16Len c) (off + charUtf8Size c) (by omega)
  | cons c' p' ih =>
    intro s cnt off h1 h2
    rw [utf16Len_cons] at h1 h2
    show utf16ToUtf8Loop w (c' :: (p' ++ c :: s)) cnt off = _
    unfold utf16ToUtf8Loop
    rw [if_neg (by omega)]
    rw [ih s (cnt + charUtf16Len c') (off + charUtf8Size c') (by omega) (by omega)]
    simp [Nat.add_assoc, Nat.add_comm, Nat.add_left_comm]

/-- C4 counterexample: the conversions are not total-and-rounding-down
as claimed: a UTF-8 offset inside a multi-byte character (byte 1 of
`é`) makes `utf8_to_utf16_col` slice at a non-boundary, which panics
(modelled `none`) instead of rounding down to `some 0`; and a UTF-16
offset inside a surrogate pair (unit 1 of U+1F600) rounds UP to byte 4
instead of down to byte 0. -/
theorem c4_counterexample :
    utf8ToUtf16Col ['é'] 1 = none ∧
    utf8ToUtf16Col ['é'] 1 ≠ some 0 ∧
    utf16ToUtf8Col [Char.ofNat 0x1F600] 1 = 4 ∧
    utf16ToUtf8Col [Char.ofNat 0x1F600] 1 ≠ 0 := by
  refine ⟨rfl, by decide, rfl, by decide⟩

/-- C4 amended: on character boundaries the two per-line conversions
are mutually inverse — for every decomposition `L = p ++ s`,
`utf8_to_utf16_col` maps the byte length of `p` to (`some` of) the
UTF-16 length of `p`, and `utf16_to_utf8_col` maps the UTF-16 length of
`p` back to the byte length of `p` — and a UTF-16 offset that falls
strictly inside a character rounds to the nearest HIGHER boundary (the
end of that character); a UTF-8 offset strictly inside a character and
below the line length is not rounded but panics (`none` in the
embedding, witnessed by the counterexample). -/
theorem c4_utf16_roundtrip :
    (∀ p s : List Char,
       utf8ToUtf16Col (p ++ s) (utf8Len p) = some (utf16Len p) ∧
       utf16ToUtf8Col (p ++ s) (utf16Len p) = utf8Len p) ∧
    (∀ (p : List Char) (c : Char) (s : List Char) (w : Nat),
       utf16Len p < w → w ≤ utf16Len p + charUtf16Len c →
       utf16ToUtf8Col (p ++ c :: s) w = utf8Len p + charUtf8Size c) := by
  constructor
  · intro p s
    constructor
    · unfold utf8ToUtf16Col
      by_cases h : utf8Len (p ++ s) ≤ utf8Len p
      · rw [if_pos h]
        have hs : s = [] := by
          apply utf8Len_eq_zero
          have : utf8Len (p ++ s) = utf8Len p + utf8Len s := by
            simp [utf8Len, List.sum_append]
          omega
        subst hs
        simp
      · rw [if_neg h, takeBytes_prefix]
        rfl
    · unfold utf16ToUtf8Col
      simpa using utf16Loop_prefix p s 0 0
  · intro p c s w h1 h2
    unfold utf16ToUtf8Col
    simpa using utf16Loop_round w c p s 0 0 (by omega) (by omega)

/-- C4 witness: the round-trip theorem applied at the line
`hello😀world` with the boundary prefix `hello😀` (9 bytes, 7 UTF-16
units), and the rounding part applied inside the emoji's surrogate
pair. -/
theorem c4_utf16_roundtrip_witness :
    (utf8ToUtf16Col ("hello".data ++ [Char.ofNat 0x1F600] ++ "world".data) 9 = some 7 ∧
     utf16ToUtf8Col ("hello".data ++ [Char.ofNat 0x1F600] ++ "world".data) 7 = 9) ∧
    (utf16Len "hello".data < 6 ∧ 6 ≤ utf16Len "hello".data + charUtf16Len (Char.ofNat 0x1F600) ∧
     utf16ToUtf8Col ("hello".data ++ Char.ofNat 0x1F600 :: "world".data) 6 = 9) := by
  constructor
  · have h := (c4_utf16_roundtrip.1 ("hello".data ++ [Char.ofNat 0x1F600]) "world".data)
    constructor
    · have h1 := h.1
      rw [show utf8Len ("hello".data ++ [Char.ofNat 0x1F600]) = 9 from rfl,
          show utf16Len ("hello".data ++ [Char.ofNat 0x1F600]) = 7 from rfl] at h1
      simpa [List.append_assoc] using h1
    · have h2 := h.2
      rw [show utf8Len ("hello".data ++ [Char.ofNat 0x1F600]) = 9 from rfl,
          show utf16Len ("hello".data ++ [Char.ofNat 0x1F600]) = 7 from rfl] at h2
      simpa [List.append_assoc] using h2
  · refine ⟨by decide, by decide, ?_⟩
    have := c4_utf16_roundtrip.2 "hello".data (Char.ofNat 0x1F600) "world".data 6
      (by decide) (by decide)
    simpa using this

/-- Pop loop characterisation: `popIndent` drops exactly the stack
levels greater than the new indent (a `dropWhile` from the top) and
counts them. -/
theorem popIndent_eq (stack : List Nat) (spaces : Nat) :
    popIndent stack spaces =
      (stack.dropWhile (fun t => decide (spaces < t)),
       stack.length - (stack.dropWhile (fun t => decide (spaces < t))).length) := by
  induction stack with
  | nil => rfl
  | cons t rest ih =>
    by_cases h : t ≤ spaces
    · simp [popIndent, h, List.dropWhile, Nat.not_lt.mpr h]
    · have hlt : spaces < t := Nat.not_le.mp h
      have hlen := (List.dropWhile_sublist (l := rest) (fun t => decide (spaces < t))).length_le
      simp [popIndent, h, List.dropWhile, hlt, ih]
      omega

/-- A stack holding a level not above the new indent is not emptied by
the pop loop. -/
theorem dropWhile_ne_nil_of_mem {stack : List Nat} {spaces : Nat} {x : Nat}
    (hx : x ∈ stack) (hle : x ≤ spaces) :
    stack.dropWhile (fun t => decide (spaces < t)) ≠ [] := by
  intro hnil
  rw [List.dropWhile_eq_nil_iff] at hnil
  have := hnil x hx
  simp at this
  omega

/-- C7: at a logical line whose leading-space count `N` is strictly
below the stack's top, `handle_indentation` pops every stack level
greater than `N` (one eventual `Dedent` per pop): when the remaining
top equals `N` it returns one `Dedent` token immediately and leaves the
remaining pops in the pending counter; when no remaining level equals
`N` it returns the misalignment `Error` token and leaves all pops
pending.  And `next_token` emits one pending `Dedent` per request,
decrementing the counter, before any further lexing. -/
theorem c7_dedent_emission :
    (∀ (cs cs' : List Char) (st st' : ScanPos) (N : Nat),
      countLeadingSpaces cs st = (N, false, cs', st') →
      N < st'.indentStack.headD 0 →
      0 ∈ st'.indentStack →
      1 ≤ st'.indentStack.length -
        (st'.indentStack.dropWhile (fun t => decide (N < t))).length ∧
      (handleIndentation cs st).2.2.indentStack =
        st'.indentStack.dropWhile (fun t => decide (N < t)) ∧
      ((st'.indentStack.dropWhile (fun t => decide (N < t))).headD 0 = N →
        (handleIndentation cs st).1 = some ⟨.dedent, ⟨st.pos, st'.pos⟩⟩ ∧
        (handleIndentation cs st).2.2.pendingDedents =
          st'.pendingDedents +
            (st'.indentStack.length -
              (st'.indentStack.dropWhile (fun t => decide (N < t))).length) - 1) ∧
      ((st'.indentStack.dropWhile (fun t => decide (N < t))).headD 0 ≠ N →
        (handleIndentation cs st).1 =
          some ⟨.error ("Indentation mismatch: " ++ toString N ++
            " spaces does not match any previous level"), ⟨st.pos, st'.pos⟩⟩ ∧
        (handleIndentation cs st).2.2.pendingDedents =
          st'.pendingDedents +
            (st'.indentStack.length -
              (st'.indentStack.dropWhile (fun t => decide (N < t))).length))) ∧
    (∀ (cs : List Char) (st : ScanPos), 0 < st.pendingDedents →
      nextToken cs st = (⟨.dedent, Span.point st.pos⟩, cs,
        { st with pendingDedents := st.pendingDedents - 1 })) := by
  constructor
  · intro cs cs' st st' N hcount htop h0
    set stack' := st'.indentStack.dropWhile (fun t => decide (N < t)) with hstack'
    set popped := st'.indentStack.length - stack'.length with hpopped
    -- the stack is nonempty (its top is above N), so at least one level pops
    have hne : stack' ≠ [] := dropWhile_ne_nil_of_mem h0 (Nat.zero_le N)
    have hstackne : st'.indentStack ≠ [] := by
      intro h
      rw [h] at htop
      simp at htop
    have hpop1 : 1 ≤ popped := by
      obtain ⟨t, rest, hrest⟩ := List.exists_cons_of_ne_nil hstackne
      have htlt : N < t := by
        rw [hrest] at htop
        simpa using htop
      have : stack' = rest.dropWhile (fun t => decide (N < t)) := by
        rw [hstack', hrest, List.dropWhile_cons_of_pos (by simpa using htlt)]
      have hlen := (List.dropWhile_sublist (l := rest) (fun t => decide (N < t))).length_le
      rw [hpopped, this, hrest]
      simp only [List.length_cons]
      omega
    -- unfold handle_indentation along the counted spaces
    have hcur : N < st'.indentStack.headD 0 := htop
    have hngt : ¬ (N > st'.indentStack.headD 0) := by omega
    unfold handleIndentation
    rw [hcount]
    simp only [Bool.false_eq_true, if_false, if_neg hngt, if_pos hcur,
      popIndent_eq, ← hstack', ← hpopped]
    -- the misalignment test of the source
    by_cases halign : stack'.headD 0 = N
    · have hhead : stack'.head? = some N := by
        obtain ⟨x, xs, hx⟩ := List.exists_cons_of_ne_nil hne
        rw [hx]
        rw [hx] at halign
        simpa using halign
      rw [if_neg (by simp [hhead])]
      rw [if_pos (by omega)]
      refine ⟨hpop1, rfl, fun _ => ⟨rfl, rfl⟩, fun hcon => absurd halign hcon⟩
    · have hN0 : N ≠ 0 := by
        intro h
        subst h
        obtain ⟨x, xs, hx⟩ := List.exists_cons_of_ne_nil hne
        have hxle : ¬ (0 < x) := by
          have := List.head?_dropWhile_not (fun t => decide (0 < t)) st'.indentStack
          rw [← hstack', hx] at this
          simpa using this
        rw [hx] at halign
        simp at halign
        omega
      have hhead : stack'.head? ≠ some N := by
        obtain ⟨x, xs, hx⟩ := List.exists_cons_of_ne_nil hne
        rw [hx]
        rw [hx] at halign
        simp at halign ⊢
        exact halign
      rw [if_pos (by exact ⟨hhead, hN0⟩)]
      exact ⟨hpop1, rfl, fun hcon => absurd hcon halign, fun _ => ⟨rfl, rfl⟩⟩
  · intro cs st h
    unfold nextToken
    rw [if_pos (by simpa using h)]
    rfl

/-- C7 witness: the dedent theorem applied at the state reached after
`a:`, `  b: c` when the next line starts with zero spaces before `d`
(stack `[2, 0]`), and the pending-counter theorem at a state with two
pending dedents. -/
theorem c7_dedent_emission_witness :
    (countLeadingSpaces ['d'] ⟨2, 0, 10, [2, 0], 0, false⟩ =
      (0, false, ['d'], ⟨2, 0, 10, [2, 0], 0, false⟩) ∧
     0 < ([2, 0] : List Nat).headD 0 ∧
     0 ∈ ([2, 0] : List Nat) ∧
     (handleIndentation ['d'] ⟨2, 0, 10, [2, 0], 0, false⟩).1 =
       some ⟨.dedent, ⟨⟨2, 0, 10⟩, ⟨2, 0, 10⟩⟩⟩) ∧
    (0 < (2 : Nat) ∧
     nextToken ['d'] ⟨2, 0, 10, [0], 2, false⟩ =
       (⟨.dedent, Span.point ⟨2, 0, 10⟩⟩, ['d'], ⟨2, 0, 10, [0], 1, false⟩)) := by
  constructor
  · refine ⟨rfl, by decide, by decide, ?_⟩
    have h := (c7_dedent_emission.1 ['d'] ['d']
      ⟨2, 0, 10, [2, 0], 0, false⟩ ⟨2, 0, 10, [2, 0], 0, false⟩ 0
      rfl (by decide) (by decide)).2.2.1 (by decide)
    exact h.1
  · refine ⟨by decide, ?_⟩
    exact c7_dedent_emission.2 ['d'] ⟨2, 0, 10, [0], 2, false⟩ (by decide)

/-- The references comparator is total. -/
theorem refLe_total (a b : KeyReference) : refLe a b = true ∨ refLe b a = true := by
  unfold refLe
  simp only [Bool.or_eq_true, Bool.and_eq_true, decide_eq_true_eq]
  omega

/-- The references comparator is transitive. -/
theorem refLe_trans {a b c : KeyReference} (h1 : refLe a b = true)
    (h2 : refLe b c = true) : refLe a c = true := by
  unfold refLe at h1 h2 ⊢
  simp only [Bool.or_eq_true, Bool.and_eq_true, decide_eq_true_eq] at h1 h2 ⊢
  omega

/-- Insertion preserves membership. -/
theorem mem_insertRef (a x : KeyReference) :
    ∀ l : List KeyReference, a ∈ insertRef x l ↔ a = x ∨ a ∈ l := by
  intro l
  induction l with
  | nil => simp [insertRef]
  | cons y ys ih =>
    by_cases h : refLe y x = true
    · simp [insertRef, h, ih]
      try tauto
    · simp [insertRef, h]
      try tauto

/-- Insertion preserves sortedness. -/
theorem pairwise_insertRef (x : KeyReference) :
    ∀ l : List KeyReference, l.Pairwise (fun u v => refLe u v = true) →
      (insertRef x l).Pairwise (fun u v => refLe u v = true) := by
  intro l
  induction l with
  | nil => intro _; simp [insertRef]
  | cons y ys ih =>
    intro hl
    rw [List.pairwise_cons] at hl
    obtain ⟨hy, hys⟩ := hl
    by_cases h : refLe y x = true
    · rw [insertRef, if_pos h, List.pairwise_cons]
      refine ⟨?_, ih hys⟩
      intro z hz
      rcases (mem_insertRef z x ys).mp hz with hzx | hzys
      · rw [hzx]; exact h
      · exact hy z hzys
    · rw [insertRef, if_neg h, List.pairwise_cons]
      have hxy : refLe x y = true := (refLe_total x y).resolve_right (by simpa using h)
      refine ⟨?_, List.pairwise_cons.mpr ⟨hy, hys⟩⟩
      intro z hz
      rcases List.mem_cons.mp hz with hzy | hzys
      · rw [hzy]; exact hxy
      · exact refLe_trans hxy (hy z hzys)

/-- The stable sort is a permutation at the level of membership. -/
theorem mem_sortRefs (a : KeyReference) (l : List KeyReference) :
    a ∈ sortRefs l ↔ a ∈ l := by
  have hgen : ∀ (l acc : List KeyReference),
      (a ∈ l.foldl (fun acc x => insertRef x acc) acc ↔ a ∈ acc ∨ a ∈ l) := by
    intro l
    induction l with
    | nil => intro acc; simp
    | cons x xs ih =>
      intro acc
      simp only [List.foldl_cons]
      rw [ih (insertRef x acc), mem_insertRef]
      simp
      tauto
  unfold sortRefs
  rw [hgen l []]
  simp

/-- The stable sort sorts. -/
theorem pairwise_sortRefs (l : List KeyReference) :
    (sortRefs l).Pairwise (fun u v => refLe u v = true) := by
  have hgen : ∀ (l acc : List KeyReference),
      acc.Pairwise (fun u v => refLe u v = true) →
      (l.foldl (fun acc x => insertRef x acc) acc).Pairwise
        (fun u v => refLe u v = true) := by
    intro l
    induction l with
    | nil => intro acc h; simpa using h
    | cons x xs ih =>
      intro acc h
      simp only [List.foldl_cons]
      exact ih (insertRef x acc) (pairwise_insertRef x acc h)
  exact hgen l [] List.Pairwise.nil

/-- C5: with the cursor on a key `K` (as determined by the cursor
lookup), the references service returns exactly the key-span pairs of
the whole-document key collection whose key equals `K` character for
character — no partial matches — sorted by (start line, start column);
with `include_declaration = false` the occurrences whose spans contain
the cursor are removed from that result; and when the cursor is not on
a key (or its position is invalid) the service returns the empty list. -/
theorem c5_references_exact (fuel : Nat) (ast : AstNode) (text : String)
    (line col : Nat) :
    (∀ off entry, calculate_offset text line col = some off →
      cursorKey fuel ast line col off = some entry →
      ((∀ r, r ∈ findReferencesAtPosition fuel ast text line col true ↔
          (r.keyName = entry.key ∧ (r.keyName, r.span) ∈ collectAllKeys fuel ast ∧
           r.isDefinition = true)) ∧
       (findReferencesAtPosition fuel ast text line col true).Pairwise
         (fun a b => refLe a b = true) ∧
       findReferencesAtPosition fuel ast text line col false =
         (findReferencesAtPosition fuel ast text line col true).filter
           (fun r => !(r.span.containsPos ⟨line, col, off⟩)))) ∧
    (∀ off, calculate_offset text line col = some off →
      cursorKey fuel ast line col off = none →
      ∀ b, findReferencesAtPosition fuel ast text line col b = []) ∧
    (calculate_offset text line col = none →
      ∀ b, findReferencesAtPosition fuel ast text line col b = []) := by
  refine ⟨?_, ?_, ?_⟩
  · intro off entry hoff hkey
    unfold cursorKey at hkey
    cases hfind : findNodeAtPosition fuel ast line col off with
    | none => rw [hfind] at hkey; cases hkey
    | some info =>
      rw [hfind] at hkey
      have hokey : info.onKey = some entry := by simpa using hkey
      have hres : findReferencesAtPosition fuel ast text line col true =
          sortRefs (((collectAllKeys fuel ast).filter
            (fun kv => decide (kv.1 = entry.key))).map
              (fun kv => KeyReference.mk kv.1 kv.2 true)) := by
        unfold findReferencesAtPosition
        simp only [hoff, hfind, hokey, Bool.not_true, Bool.false_eq_true, if_false]
      have hresf : findReferencesAtPosition fuel ast text line col false =
          (sortRefs (((collectAllKeys fuel ast).filter
            (fun kv => decide (kv.1 = entry.key))).map
              (fun kv => KeyReference.mk kv.1 kv.2 true))).filter
            (fun r => !(r.span.containsPos ⟨line, col, off⟩)) := by
        unfold findReferencesAtPosition
        simp only [hoff, hfind, hokey, Bool.not_false, if_true]
      refine ⟨?_, ?_, ?_⟩
      · intro r
        rw [hres, mem_sortRefs, List.mem_map]
        constructor
        · rintro ⟨kv, hkv, hf⟩
          rw [List.mem_filter] at hkv
          obtain ⟨hmem, hp⟩ := hkv
          rw [decide_eq_true_eq] at hp
          rw [← hf]
          exact ⟨hp, by simpa using hmem, rfl⟩
        · rintro ⟨h1, h2, h3⟩
          refine ⟨(r.keyName, r.span), ?_, ?_⟩
          · rw [List.mem_filter]
            exact ⟨h2, by simpa using h1⟩
          · cases r with
            | mk kn sp d =>
              simp only at h3
              rw [h3]
      · rw [hres]
        exact pairwise_sortRefs _
      · rw [hresf, hres]
  · intro off hoff hkey b
    unfold cursorKey at hkey
    cases hfind : findNodeAtPosition fuel ast line col off with
    | none =>
      unfold findReferencesAtPosition
      simp only [hoff, hfind]
    | some info =>
      rw [hfind] at hkey
      have hokey : info.onKey = none := by simpa using hkey
      unfold findReferencesAtPosition
      simp only [hoff, hfind, hokey]
  · intro hoff b
    unfold findReferencesAtPosition
    simp only [hoff]

/-- C5 witness: the exactness theorem applied to the document
`name: Alice\nuser:\n  name: Bob` with the cursor at (0,0), which lies
on the key `name`. -/
theorem c5_references_exact_witness :
    calculate_offset "name: Alice\nuser:\n  name: Bob" 0 0 = some 0 ∧
    cursorKey 100 (parsedAst "name: Alice\nuser:\n  name: Bob") 0 0 0 =
      some ⟨"name", ⟨⟨0, 0, 0⟩, ⟨0, 4, 4⟩⟩,
        .string "Alice" ⟨⟨0, 6, 6⟩, ⟨0, 11, 11⟩⟩⟩ ∧
    (∀ r, r ∈ findReferencesAtPosition 100
        (parsedAst "name: Alice\nuser:\n  name: Bob")
        "name: Alice\nuser:\n  name: Bob" 0 0 true ↔
      (r.keyName = "name" ∧
       (r.keyName, r.span) ∈ collectAllKeys 100 (parsedAst "name: Alice\nuser:\n  name: Bob") ∧
       r.isDefinition = true)) :=
  ⟨rfl, rfl,
    ((c5_references_exact 100 (parsedAst "name: Alice\nuser:\n  name: Bob")
      "name: Alice\nuser:\n  name: Bob" 0 0).1 0
      ⟨"name", ⟨⟨0, 0, 0⟩, ⟨0, 4, 4⟩⟩, .string "Alice" ⟨⟨0, 6, 6⟩, ⟨0, 11, 11⟩⟩⟩
      rfl rfl).1⟩

/-- Helper for C9: `parse_object`'s body has no failing exit — errors
from `parse_object_entry` are recorded and synchronised away inside the
loop — so its result is `ok` for every fuel and every state. -/
theorem parseObjectAlwaysOk (fuel : Nat) (s : PState) (sp : Span) :
    ∃ n s', parseObject fuel s sp = (.ok n, s') := by
  cases fuel with
  | zero => exact ⟨_, _, rfl⟩
  | succ f =>
    rcases h : parseObjectLoop f s [] with ⟨entries, s2⟩
    refine ⟨AstNode.object entries
      (Span.merge sp ((entries.getLast?.map (fun x => x.value.nodeSpan)).getD sp)), s2, ?_⟩
    simp only [parseObject, h]

/-- C9: for every input string, `parse_with_errors` returns `Some` AST:
`parse_object` handles every entry-level error by recording it and
synchronising rather than propagating, so `parse_document` always
succeeds and a (possibly partial) document is returned even when the
error list is non-empty. -/
theorem c9_parse_with_errors_always_some :
    (∀ fuel s, ∃ n s', parseDocument fuel s = (.ok n, s')) ∧
    (∀ source, (parseWithErrors source).1.isSome = true) := by
  have hdoc : ∀ fuel s, ∃ n s', parseDocument fuel s = (.ok n, s') := by
    intro fuel s
    unfold parseDocument
    by_cases h : s.skipNewlines.isAtEnd = true
    · simp only [h, if_true]
      exact ⟨_, _, rfl⟩
    · simp only [h, if_false, Bool.false_eq_true]
      obtain ⟨n, s', hn⟩ := parseObjectAlwaysOk fuel s.skipNewlines s.current.span
      rw [hn]
      exact ⟨_, _, rfl⟩
  refine ⟨hdoc, ?_⟩
  intro source
  obtain ⟨n, s', hn⟩ := hdoc (parseFuel (parserInit source)) (parserInit source)
  simp [parseWithErrors, hn]

/-- C8: `parse_with_errors` applied to the empty string returns a
`Document` node with no children together with an empty error list. -/
theorem c8_empty_input_empty_document :
    parseWithErrors "" = (some (.document [] (Span.point ⟨0, 0, 0⟩)), []) := rfl

/-- C3 counterexample: on `"name Alice"` the code records the
`ExpectedColon` error twice (once when the error is raised inside
`parse_object_entry` and once more by `parse_object`, whose
`recovering` flag is still false at that point), and the error's span
is bytes 5..10 (the `Alice` token), not bytes 4..5; so the statement
contributes two entries, not exactly one, and the claimed span is wrong. -/
theorem c3_counterexample :
    (parseWithErrors "name Alice").2.length = 2 ∧
    ((parseWithErrors "name Alice").2.map (fun e => e.span.start.offset)) = [5, 5] ∧
    ((parseWithErrors "name Alice").2.map (fun e => e.span.stop.offset)) = [10, 10] := by
  refine ⟨rfl, rfl, rfl⟩

/-- C3 amended: a failed statement's error is pushed twice — once when
raised, once by `parse_object`'s handler, because the `recovering` flag
is false there — so `parse_with_errors "name Alice"` returns a partial
`Document` (with an empty object) together with exactly two identical
`ExpectedColon` errors, each spanning bytes 5..10, the token after the
key. -/
theorem c3_missing_colon_two_errors :
    parseWithErrors "name Alice" =
      (some (.document [.object [] ⟨⟨0, 0, 0⟩, ⟨0, 4, 4⟩⟩] ⟨⟨0, 0, 0⟩, ⟨0, 4, 4⟩⟩),
       [⟨.expectedColon, ⟨⟨0, 5, 5⟩, ⟨0, 10, 10⟩⟩, none⟩,
        ⟨.expectedColon, ⟨⟨0, 5, 5⟩, ⟨0, 10, 10⟩⟩, none⟩]) := rfl

/-- C2 counterexample: lexing the literal `-0` (no fraction, no
exponent) and parsing it produces `NegInt 0`, not `PosInt 0`, and
`NegInt 0` is not strictly negative, so the claimed invariant and the
claimed `-0` behaviour both fail on the code. -/
theorem c2_counterexample :
    firstNumberValue 100 (parsedAst "x: -0") = some (.negInt 0) ∧
    NumberValue.negInt 0 ≠ NumberValue.posInt 0 ∧
    ¬((0 : Int) < 0) := by
  refine ⟨rfl, by simp, by simp⟩

/-- C6: for `"name: Alice\nage: 30"`, collecting semantic tokens and
delta-encoding them yields exactly the four encoded tokens
`(0,0,4,0,1)`, `(0,6,5,1,2)`, `(1,0,3,0,1)`, `(0,5,2,2,2)`: keys are
`Property` (type 0) with the `Definition` modifier (bit 0), and value
literals carry the `Readonly` modifier (bit 1). -/
theorem c6_semantic_tokens_encoding :
    collectSemanticTokens 100 (parsedAst "name: Alice\nage: 30") =
      [⟨0, 0, 4, .property, 1⟩, ⟨0, 6, 5, .stringT, 2⟩,
       ⟨1, 0, 3, .property, 1⟩, ⟨1, 5, 2, .numberT, 2⟩] ∧
    encodeTokens (collectSemanticTokens 100 (parsedAst "name: Alice\nage: 30"))
        "name: Alice\nage: 30" =
      [⟨0, 0, 4, 0, 1⟩, ⟨0, 6, 5, 1, 2⟩, ⟨1, 0, 3, 0, 1⟩, ⟨0, 5, 2, 2, 2⟩] :=
  ⟨rfl, rfl⟩

/-- C1 (code-bug evidence): `"tags[3]: one,two,three"` parses without
errors into an `Inline` array, the formatter (its module documentation
promises output that "parses to an equivalent AST") renders it as
`tags: [one, two, three]`, and parsing that output fails with
`ExpectedValue` at the `[` (the parser's value dispatcher has no
left-bracket case) — so `parse(format(A))` is an error rather than `A`
modulo spans. -/
theorem c1_format_roundtrip_fails :
    (parseWithErrors "tags[3]: one,two,three").2 = [] ∧
    (parseWithErrors "tags[3]: one,two,three").1.isSome = true ∧
    firstValueForm (parseWithErrors "tags[3]: one,two,three").1 = some .inline ∧
    formatDocument 100 (parsedAst "tags[3]: one,two,three") defaultFormattingOptions =
      some "tags: [one, two, three]\n" ∧
    parse "tags: [one, two, three]\n" =
      .error ⟨.expectedValue, ⟨⟨0, 6, 6⟩, ⟨0, 7, 7⟩⟩, none⟩ := by
  refine ⟨rfl, rfl, rfl, rfl, rfl⟩

/-- C10: after `DocumentState::new` and after every
`DocumentState::update` — hence across any sequence of updates — the
stored `(ast, errors)` pair equals exactly `parse_with_errors` of the
stored text, and the stored version and text are the supplied ones. -/
theorem c10_document_state_sync :
    (∀ t v, stateSynced (DocumentState.new t v) ∧
      (DocumentState.new t v).version = v ∧ (DocumentState.new t v).text = t) ∧
    (∀ s t v, stateSynced (DocumentState.update s t v) ∧
      (DocumentState.update s t v).version = v ∧ (DocumentState.update s t v).text = t) ∧
    (∀ t v us, stateSynced (applyUpdates (DocumentState.new t v) us)) := by
  have hnew : ∀ t v, stateSynced (DocumentState.new t v) ∧
      (DocumentState.new t v).version = v ∧ (DocumentState.new t v).text = t := by
    intro t v
    unfold DocumentState.new stateSynced
    cases h : parseWithErrors t with
    | mk ast errors => simp [h]
  have hupd : ∀ s t v, stateSynced (DocumentState.update s t v) ∧
      (DocumentState.update s t v).version = v ∧ (DocumentState.update s t v).text = t := by
    intro s t v
    unfold DocumentState.update stateSynced
    cases h : parseWithErrors t with
    | mk ast errors => simp [h]
  refine ⟨hnew, hupd, ?_⟩
  intro t v us
  have : ∀ (s : DocumentState), stateSynced s → stateSynced (applyUpdates s us) := by
    induction us with
    | nil => intro s hs; exact hs
    | cons u rest ih =>
      intro s _
      exact ih (s.update u.1 u.2) (hupd s u.1 u.2).1
  exact this _ (hnew t v).1

/-- Range fact for the `u64` digit parser. -/
theorem u64OfDigits_lt {l : List Char} {n : Nat} (h : u64OfDigits l = some n) :
    n < 2 ^ 64 := by
  unfold u64OfDigits at h
  cases hd : digitsToNat l with
  | none => rw [hd] at h; simp at h
  | some d =>
    rw [hd] at h
    simp only [Option.some_bind] at h
    split at h
    · rename_i hlt
      cases h
      exact hlt
    · simp at h

/-- Range fact for the negative `i64` digit parser: the value is
non-positive and not below `-2^63`. -/
theorem i64OfNegDigits_ok {l : List Char} {n : Int} (h : i64OfNegDigits l = some n) :
    -(2 ^ 63) ≤ n ∧ n ≤ 0 := by
  unfold i64OfNegDigits at h
  cases hd : digitsToNat l with
  | none => rw [hd] at h; simp at h
  | some d =>
    rw [hd] at h
    simp only [Option.some_bind] at h
    split at h
    · rename_i hle
      cases h
      constructor
      · have : (d : Int) ≤ 2 ^ 63 := by exact_mod_cast hle
        omega
      · omega
    · simp at h

/-- Range fact for `parse::<u64>`. -/
theorem parseU64s_lt {t : String} {n : Nat} (h : parseU64s t = some n) :
    n < 2 ^ 64 := by
  unfold parseU64s at h
  split at h
  · split at h
    · exact u64OfDigits_lt h
    · exact u64OfDigits_lt h
  · exact u64OfDigits_lt h

/-- A `-`-prefixed literal accepted by `parse::<i64>` has a value in
`[-2^63, 0]`. -/
theorem parseI64s_nonpos {t : String} {n : Int} (hd : startsWithDash t = true)
    (h : parseI64s t = some n) : -(2 ^ 63) ≤ n ∧ n ≤ 0 := by
  unfold startsWithDash at hd
  unfold parseI64s at h
  cases ht : t.data with
  | nil => rw [ht] at hd; simp at hd
  | cons c rest =>
    rw [ht] at hd h
    simp only [decide_eq_true_eq] at hd
    have h' : (if c = '-' then i64OfNegDigits rest
        else if c = '+' then i64OfPosDigits rest
        else i64OfPosDigits (c :: rest)) = some n := h
    rw [if_pos hd] at h'
    exact i64OfNegDigits_ok h'

/-- Every number value produced by `parse_number_value` satisfies the
range invariant: floats trivially, `-`-prefixed literals give
non-positive `NegInt`s, everything else a `PosInt` below `2^64`. -/
theorem parseNumberValue_ok {t : String} {sp : Span} {v : NumberValue}
    (h : parseNumberValue t sp = .ok v) : numValOk v := by
  unfold parseNumberValue at h
  split at h
  · split at h
    · cases h; trivial
    · simp at h
  · split at h
    · rename_i hfloat hdash
      cases hp : parseI64s t with
      | none => rw [hp] at h; simp at h
      | some n =>
        rw [hp] at h
        simp only [] at h
        cases h
        exact parseI64s_nonpos hdash hp
    · rename_i hfloat hdash
      cases hp : parseU64s t with
      | none => rw [hp] at h; simp at h
      | some n =>
        rw [hp] at h
        simp only [] at h
        cases h
        exact parseU64s_lt hp

/-- String tokens parse to `String` nodes (trivially satisfying the
number invariant). -/
theorem parseStringP_ok {s : PState} {n : AstNode} {s' : PState}
    (h : parseStringP s = (.ok n, s')) : NodeOk n := by
  unfold parseStringP at h
  rcases ht : s.advanceTok with ⟨token, s1⟩
  simp only [ht] at h
  split at h
  · simp only [Prod.mk.injEq] at h
    cases h.1
    exact NodeOk.str _ _
  · simp at h

/-- Keyword tokens parse to `Bool`/`Null` nodes. -/
theorem parsePrimitiveP_ok {s : PState} {n : AstNode} {s' : PState}
    (h : parsePrimitiveP s = (.ok n, s')) : NodeOk n := by
  unfold parsePrimitiveP at h
  rcases ht : s.advanceTok with ⟨token, s1⟩
  simp only [ht] at h
  split at h
  · simp only [Prod.mk.injEq] at h
    cases h.1
    exact NodeOk.boolOk _ _
  · simp only [Prod.mk.injEq] at h
    cases h.1
    exact NodeOk.boolOk _ _
  · simp only [Prod.mk.injEq] at h
    cases h.1
    exact NodeOk.nullOk _
  · simp at h

/-- Number tokens parse to `Number` nodes whose value passed
`parse_number_value`. -/
theorem parseNumberP_ok {s : PState} {n : AstNode} {s' : PState}
    (h : parseNumberP s = (.ok n, s')) : NodeOk n := by
  unfold parseNumberP at h
  rcases ht : s.advanceTok with ⟨token, s1⟩
  simp only [ht] at h
  split at h
  · rename_i text heq
    cases hpv : parseNumberValue text token.span with
    | ok v =>
      rw [hpv] at h
      simp only [Prod.mk.injEq] at h
      cases h.1
      exact NodeOk.num _ _ (parseNumberValue_ok hpv)
    | error e =>
      rw [hpv] at h
      simp at h
  · simp at h

/-- Unquoted runs parse to `String` nodes. -/
theorem parseUnquotedString_ok {s : PState} {n : AstNode} {s' : PState}
    (h : parseUnquotedString s = (.ok n, s')) : NodeOk n := by
  unfold parseUnquotedString at h
  rcases ht : parseUnquotedLoop (s.tokens.length + 1) s "" s.current.span
    with ⟨text, endSpan, s1⟩
  simp only [ht] at h
  simp only [Prod.mk.injEq] at h
  cases h.1
  exact NodeOk.str _ _

/-- The bare array-header path of `parse_value` only errors. -/
theorem parseArrayHeaderP_ok {s : PState} {n : AstNode} {s' : PState}
    (h : parseArrayHeaderP s = (.ok n, s')) : NodeOk n := by
  unfold parseArrayHeaderP at h
  rcases hm : PState.mkError s .unexpectedToken s.current.span with ⟨e, s1⟩
  simp only [hm] at h
  simp at h

/-- Inline-array item loop invariant: every produced item is a literal
node satisfying the number invariant. -/
theorem parseInlineLoop_ok :
    ∀ (fuel : Nat) (s : PState) (delim : Char) (acc out : List AstNode) (s' : PState),
      parseInlineLoop fuel s delim acc = (.ok out, s') →
      (∀ i ∈ acc, NodeOk i) → ∀ i ∈ out, NodeOk i := by
  intro fuel
  induction fuel with
  | zero =>
    intro s delim acc out s' h hacc
    simp only [parseInlineLoop, Prod.mk.injEq] at h
    cases h.1
    exact hacc
  | succ f ih =>
    intro s delim acc out s' h hacc
    have hstep : ∀ (item : AstNode) (s1 : PState), NodeOk item →
        (if delim = ',' && s1.checkKind .comma then
          parseInlineLoop f s1.bump delim (acc ++ [item])
        else (.ok (acc ++ [item]), s1)) = (.ok out, s') →
        ∀ i ∈ out, NodeOk i := by
      intro item s1 hitem hif
      have hmem : ∀ i ∈ acc ++ [item], NodeOk i := by
        intro i hi
        rcases List.mem_append.mp hi with hi | hi
        · exact hacc i hi
        · rw [List.mem_singleton.mp hi]; exact hitem
      split at hif
      · exact ih _ _ _ _ _ hif hmem
      · simp only [Prod.mk.injEq] at hif
        cases hif.1
        exact hmem
    simp only [parseInlineLoop] at h
    cases hk : s.current.kind with
    | string v =>
      simp only [hk] at h
      exact hstep _ _ (NodeOk.str _ _) h
    | number nstr =>
      simp only [hk] at h
      cases hpv : parseNumberValue nstr s.current.span with
      | ok v =>
        rw [hpv] at h
        exact hstep _ _ (NodeOk.num _ _ (parseNumberValue_ok hpv)) h
      | error e =>
        rw [hpv] at h
        simp at h
    | trueK =>
      simp only [hk] at h
      exact hstep _ _ (NodeOk.boolOk _ _) h
    | falseK =>
      simp only [hk] at h
      exact hstep _ _ (NodeOk.boolOk _ _) h
    | nullK =>
      simp only [hk] at h
      exact hstep _ _ (NodeOk.nullOk _) h
    | identifier v =>
      simp only [hk] at h
      exact hstep _ _ (NodeOk.str _ _) h
    | colon =>
      simp only [hk, Prod.mk.injEq] at h
      cases h.1
      exact hacc
    | comma =>
      simp only [hk, Prod.mk.injEq] at h
      cases h.1
      exact hacc
    | newline =>
      simp only [hk, Prod.mk.injEq] at h
      cases h.1
      exact hacc
    | indent =>
      simp only [hk, Prod.mk.injEq] at h
      cases h.1
      exact hacc
    | dedent =>
      simp only [hk, Prod.mk.injEq] at h
      cases h.1
      exact hacc
    | eof =>
      simp only [hk, Prod.mk.injEq] at h
      cases h.1
      exact hacc
    | leftBracket =>
      simp only [hk, Prod.mk.injEq] at h
      cases h.1
      exact hacc
    | rightBracket =>
      simp only [hk, Prod.mk.injEq] at h
      cases h.1
      exact hacc
    | leftBrace =>
      simp only [hk, Prod.mk.injEq] at h
      cases h.1
      exact hacc
    | rightBrace =>
      simp only [hk, Prod.mk.injEq] at h
      cases h.1
      exact hacc
    | dash =>
      simp only [hk, Prod.mk.injEq] at h
      cases h.1
      exact hacc
    | error msg =>
      simp only [hk, Prod.mk.injEq] at h
      cases h.1
      exact hacc

/-- Inline arrays satisfy the invariant. -/
theorem parseInlineArray_ok {s : PState} {sp : Span} {delim : Char}
    {n : AstNode} {s' : PState}
    (h : parseInlineArray s sp delim = (.ok n, s')) : NodeOk n := by
  unfold parseInlineArray at h
  split at h
  all_goals
    first
    | (simp only [Prod.mk.injEq] at h
       cases h.1
       exact NodeOk.arr _ _ _ (by intro i hi; cases hi))
    | (rcases hloop : parseInlineLoop (s.tokens.length + 1) s delim [] with ⟨res, s2⟩
       simp only [hloop] at h
       cases res with
       | ok items =>
         simp only [Prod.mk.injEq] at h
         cases h.1
         exact NodeOk.arr _ _ _
           (parseInlineLoop_ok _ _ _ _ _ _ hloop (by intro i hi; cases hi))
       | error e => simp at h)

/-- Tabular-row field loop invariant: every field value is a literal
node satisfying the number invariant. -/
theorem parseRowLoop_ok :
    ∀ (fields : List String) (delim : Char) (rowStart : Span) (s : PState)
      (out : List ObjectEntry) (s' : PState),
      parseRowLoop delim rowStart fields s = (.ok out, s') →
      ∀ e ∈ out, NodeOk e.value := by
  intro fields
  induction fields with
  | nil =>
    intro delim rowStart s out s' h e he
    simp only [parseRowLoop, Prod.mk.injEq] at h
    cases h.1
    cases he
  | cons f rest ih =>
    intro delim rowStart s out s' h e he
    simp only [parseRowLoop] at h
    split at h
    · simp at h
    · rename_i value s1 heq
      have hv : NodeOk value := by
        split at heq
        · simp only [Prod.mk.injEq] at heq
          cases heq.1
          exact NodeOk.str _ _
        · split at heq
          · rename_i v hpv
            simp only [Prod.mk.injEq] at heq
            cases heq.1
            exact NodeOk.num _ _ (parseNumberValue_ok hpv)
          · simp at heq
        · simp only [Prod.mk.injEq] at heq
          cases heq.1
          exact NodeOk.str _ _
        · simp only [Prod.mk.injEq] at heq
          cases heq.1
          exact NodeOk.boolOk _ _
        · simp only [Prod.mk.injEq] at heq
          cases heq.1
          exact NodeOk.boolOk _ _
        · simp only [Prod.mk.injEq] at heq
          cases heq.1
          exact NodeOk.nullOk _
        · simp only [Prod.mk.injEq] at heq
          cases heq.1
          exact NodeOk.nullOk _
      split at h
      · rename_i entries s2 hrec
        simp only [Prod.mk.injEq] at h
        cases h.1
        rcases List.mem_cons.mp he with he1 | he2
        · rw [he1]
          exact hv
        · exact ih _ _ _ _ _ hrec e he2
      · simp at h

/-- Tabular rows are objects of literal values. -/
theorem parseTabularRow_ok {s : PState} {fields : List String} {delim : Char}
    {n : AstNode} {s' : PState}
    (h : parseTabularRow s fields delim = (.ok n, s')) : NodeOk n := by
  unfold parseTabularRow at h
  rcases hrec : parseRowLoop delim s.current.span fields s with ⟨res, s2⟩
  cases res with
  | ok entries =>
    simp only [hrec, Prod.mk.injEq] at h
    cases h.1
    exact NodeOk.obj _ _ (parseRowLoop_ok _ _ _ _ _ _ hrec)
  | error e =>
    simp only [hrec] at h
    simp at h

/-- Tabular row loop invariant. -/
theorem parseTabularRowsLoop_ok :
    ∀ (count : Nat) (s : PState) (fields : List String) (delim : Char)
      (acc out : List AstNode) (s' : PState),
      parseTabularRowsLoop count s fields delim acc = (.ok out, s') →
      (∀ i ∈ acc, NodeOk i) → ∀ i ∈ out, NodeOk i := by
  intro count
  induction count with
  | zero =>
    intro s fields delim acc out s' h hacc
    simp only [parseTabularRowsLoop, Prod.mk.injEq] at h
    cases h.1
    exact hacc
  | succ c ih =>
    intro s fields delim acc out s' h hacc
    simp only [parseTabularRowsLoop] at h
    split at h
    · simp only [Prod.mk.injEq] at h
      cases h.1
      exact hacc
    · rcases hrow : parseTabularRow s fields delim with ⟨res, s2⟩
      cases res with
      | ok row =>
        simp only [hrow] at h
        refine ih _ _ _ _ _ _ h ?_
        intro i hi
        rcases List.mem_append.mp hi with hi | hi
        · exact hacc i hi
        · rw [List.mem_singleton.mp hi]
          exact parseTabularRow_ok hrow
      | error e =>
        simp only [hrow] at h
        simp at h

/-- Tabular arrays satisfy the invariant. -/
theorem parseTabularArray_ok {s : PState} {sp : Span} {count : Nat}
    {fields : List String} {delim : Char} {n : AstNode} {s' : PState}
    (h : parseTabularArray s sp count fields delim = (.ok n, s')) : NodeOk n := by
  simp only [parseTabularArray] at h
  split at h
  all_goals
    first
    | (simp only [Prod.mk.injEq, Except.ok.injEq] at h
       cases h.1
       exact NodeOk.arr _ _ _
         (parseTabularRowsLoop_ok _ _ _ _ _ _ _ (by assumption)
           (by intro i hi; cases hi)))
    | simp at h

/-- Arrays with a `key[N]` header satisfy the invariant. -/
theorem parseArrayWithKey_ok {s : PState} {sp : Span} {n : AstNode} {s' : PState}
    (h : parseArrayWithKey s sp = (.ok n, s')) : NodeOk n := by
  simp only [parseArrayWithKey] at h
  rcases hc : parseArrayCount s.bump with ⟨count, s1⟩
  simp only [hc] at h
  rcases hf : parseArrayFields s1 with ⟨fields, s2⟩
  simp only [hf] at h
  rcases hd : parseArrayDelim s2 with ⟨delim, s3⟩
  simp only [hd] at h
  simp only [parseArrayDispatch] at h
  rcases hm : s3.matchToken TokenKind.colon with ⟨okCol, s4⟩
  simp only [hm] at h
  split at h
  · rcases hme : s4.mkError ParseErrorKind.expectedColon s4.current.span with ⟨e, s5⟩
    simp only [hme] at h
    simp at h
  · split at h
    · exact parseTabularArray_ok h
    · exact parseInlineArray_ok h

/-- Joint number-range invariant of the mutual parser block, by
induction on the fuel: any `ok` AST (or entry, or item list) produced
by `parse_value`, `parse_nested_object`, `parse_object`,
`parse_object_entry`, `parse_expanded_array` or their loops satisfies
`NodeOk`. -/
theorem parserBlock_ok :
    ∀ fuel : Nat,
      (∀ s n s', parseValue fuel s = (.ok n, s') → NodeOk n) ∧
      (∀ s n s', parseNestedObject fuel s = (.ok n, s') → NodeOk n) ∧
      (∀ s sp n s', parseObject fuel s sp = (.ok n, s') → NodeOk n) ∧
      (∀ s acc out s', parseObjectLoop fuel s acc = (out, s') →
        (∀ e ∈ acc, NodeOk (ObjectEntry.value e)) →
        ∀ e ∈ out, NodeOk (ObjectEntry.value e)) ∧
      (∀ s e s', parseObjectEntry fuel s = (.ok e, s') →
        NodeOk (ObjectEntry.value e)) ∧
      (∀ s n s', parseExpandedArray fuel s = (.ok n, s') → NodeOk n) ∧
      (∀ s acc out s', parseExpandedLoop fuel s acc = (.ok out, s') →
        (∀ i ∈ acc, NodeOk i) → ∀ i ∈ out, NodeOk i) := by
  intro fuel
  induction fuel with
  | zero =>
    refine ⟨?_, ?_, ?_, ?_, ?_, ?_, ?_⟩
    · intro s n s' h
      simp [parseValue] at h
    · intro s n s' h
      simp [parseNestedObject] at h
    · intro s sp n s' h
      simp only [parseObject, Prod.mk.injEq, Except.ok.injEq] at h
      cases h.1
      exact NodeOk.obj _ _ (by intro e he; cases he)
    · intro s acc out s' h hacc
      simp only [parseObjectLoop, Prod.mk.injEq] at h
      cases h.1
      exact hacc
    · intro s e s' h
      simp [parseObjectEntry] at h
    · intro s n s' h
      simp only [parseExpandedArray, Prod.mk.injEq, Except.ok.injEq] at h
      cases h.1
      exact NodeOk.arr _ _ _ (by intro i hi; cases hi)
    · intro s acc out s' h hacc
      simp only [parseExpandedLoop, Prod.mk.injEq, Except.ok.injEq] at h
      cases h.1
      exact hacc
  | succ fuel ih =>
    obtain ⟨ihV, ihN, ihO, ihL, ihE, ihA, ihX⟩ := ih
    have consOk : ∀ (item : AstNode) (acc : List AstNode), NodeOk item →
        (∀ i ∈ acc, NodeOk i) → ∀ i ∈ acc ++ [item], NodeOk i := by
      intro item acc hitem hacc i hi
      rcases List.mem_append.mp hi with hi | hi
      · exact hacc i hi
      · rw [List.mem_singleton.mp hi]
        exact hitem
    have consOkE : ∀ (e : ObjectEntry) (acc : List ObjectEntry),
        NodeOk (ObjectEntry.value e) →
        (∀ x ∈ acc, NodeOk (ObjectEntry.value x)) →
        ∀ x ∈ acc ++ [e], NodeOk (ObjectEntry.value x) := by
      intro e acc hitem hacc x hx
      rcases List.mem_append.mp hx with hx | hx
      · exact hacc x hx
      · rw [List.mem_singleton.mp hx]
        exact hitem
    have hV : ∀ s n s', parseValue (fuel + 1) s = (.ok n, s') → NodeOk n := by
      intro s n s' h
      simp only [parseValue] at h
      split at h
      all_goals try split at h
      all_goals try split at h
      all_goals
        first
        | exact parseStringP_ok h
        | exact parseNumberP_ok h
        | exact parsePrimitiveP_ok h
        | exact parseArrayHeaderP_ok h
        | exact parseUnquotedString_ok h
        | exact ihN _ _ _ h
        | exact ihA _ _ _ h
        | (simp only [Prod.mk.injEq, Except.ok.injEq] at h
           cases h.1
           exact NodeOk.nullOk _)
        | simp at h
    have hN : ∀ s n s', parseNestedObject (fuel + 1) s = (.ok n, s') →
        NodeOk n := by
      intro s n s' h
      simp only [parseNestedObject] at h
      split at h
      · exact ihA _ _ _ h
      · rcases ho : parseObject fuel
            (if s.checkKind TokenKind.indent = true then s.bump else s)
            s.current.span with ⟨res, s2⟩
        simp only [ho] at h
        simp only [Prod.mk.injEq] at h
        obtain ⟨h1, h2⟩ := h
        cases h1
        exact ihO _ _ _ _ ho
    have hO : ∀ s sp n s', parseObject (fuel + 1) s sp = (.ok n, s') →
        NodeOk n := by
      intro s sp n s' h
      simp only [parseObject] at h
      rcases hl : parseObjectLoop fuel s [] with ⟨entries, s2⟩
      simp only [hl] at h
      simp only [Prod.mk.injEq, Except.ok.injEq] at h
      cases h.1
      exact NodeOk.obj _ _ (ihL _ _ _ _ hl (by intro e he; cases he))
    have hE : ∀ s e s', parseObjectEntry (fuel + 1) s = (.ok e, s') →
        NodeOk (ObjectEntry.value e) := by
      intro s e s' h
      simp only [parseObjectEntry] at h
      split at h
      all_goals
        first
        | (split at h
           all_goals
             first
             | (rcases haw : parseArrayWithKey s.bump s.current.span
                  with ⟨res, s2⟩
                simp only [haw] at h
                cases res with
                | ok v =>
                  simp only [Prod.mk.injEq, Except.ok.injEq] at h
                  cases h.1
                  exact parseArrayWithKey_ok haw
                | error err => simp at h)
             | (rcases hm : (s.bump).matchToken TokenKind.colon
                  with ⟨okCol, s2⟩
                simp only [hm] at h
                split at h
                all_goals
                  first
                  | (rcases hme : s2.mkError ParseErrorKind.expectedColon
                        s2.current.span with ⟨e2, s3⟩
                     simp only [hme] at h
                     simp at h)
                  | (rcases hv : parseValue fuel s2 with ⟨res, s3⟩
                     simp only [hv] at h
                     cases res with
                     | ok v =>
                       simp only [Prod.mk.injEq, Except.ok.injEq] at h
                       cases h.1
                       exact ihV _ _ _ hv
                     | error err => simp at h)))
        | (rcases hme : s.mkError ParseErrorKind.expectedKey s.current.span
             with ⟨e2, s2⟩
           simp only [hme] at h
           simp at h)
    have hA : ∀ s n s', parseExpandedArray (fuel + 1) s = (.ok n, s') →
        NodeOk n := by
      intro s n s' h
      simp only [parseExpandedArray] at h
      rcases hl : parseExpandedLoop fuel s [] with ⟨res, s2⟩
      simp only [hl] at h
      cases res with
      | ok items =>
        simp only [Prod.mk.injEq, Except.ok.injEq] at h
        cases h.1
        exact NodeOk.arr _ _ _ (ihX _ _ _ _ hl (by intro i hi; cases hi))
      | error e => simp at h
    have hX : ∀ s acc out s', parseExpandedLoop (fuel + 1) s acc =
        (.ok out, s') → (∀ i ∈ acc, NodeOk i) → ∀ i ∈ out, NodeOk i := by
      intro s acc out s' h hacc
      simp only [parseExpandedLoop] at h
      split at h
      · split at h
        case h_1 => simp at h
        case h_2 step item s2 heq =>
          have hitem : NodeOk item := by
            cases hk : (s.bump).current.kind <;> simp only [hk] at heq
            all_goals
              first
              | exact ihV _ _ _ heq
              | (simp only [Prod.mk.injEq, Except.ok.injEq] at heq
                 cases heq.1
                 exact NodeOk.nullOk _)
              | (cases hk2 : ((s.bump).bump).current.kind <;>
                   simp only [hk2] at heq
                 all_goals
                   first
                   | exact ihN _ _ _ heq
                   | (simp only [Prod.mk.injEq, Except.ok.injEq] at heq
                      cases heq.1
                      exact NodeOk.nullOk _))
          split at h
          · simp only [Prod.mk.injEq, Except.ok.injEq] at h
            cases h.1
            exact consOk _ _ hitem hacc
          · exact ihX _ _ _ _ h (consOk _ _ hitem hacc)
      · simp only [Prod.mk.injEq, Except.ok.injEq] at h
        cases h.1
        exact hacc
    have hL : ∀ s acc out s', parseObjectLoop (fuel + 1) s acc = (out, s') →
        (∀ e ∈ acc, NodeOk (ObjectEntry.value e)) →
        ∀ e ∈ out, NodeOk (ObjectEntry.value e) := by
      intro s acc out s' h hacc
      simp only [parseObjectLoop] at h
      split at h
      · simp only [Prod.mk.injEq] at h
        cases h.1
        exact hacc
      · split at h
        all_goals
          first
          | (simp only [Prod.mk.injEq] at h
             cases h.1
             exact hacc)
          | (rcases hpe : parseObjectEntry fuel s.skipNewlines with ⟨res, s2⟩
             simp only [hpe] at h
             cases res with
             | ok e1 => exact ihL _ _ _ _ h (consOkE _ _ (ihE _ _ _ hpe) hacc)
             | error err => exact ihL _ _ _ _ h hacc)
    exact ⟨hV, hN, hO, hL, hE, hA, hX⟩

/-- The document entry point only returns `ok` ASTs whose every number
node satisfies the range invariant. -/
theorem parseDocument_ok {fuel : Nat} {s : PState} {n : AstNode} {s' : PState}
    (h : parseDocument fuel s = (.ok n, s')) : NodeOk n := by
  simp only [parseDocument] at h
  split at h
  · simp only [Prod.mk.injEq, Except.ok.injEq] at h
    cases h.1
    exact NodeOk.doc _ _ (by intro c hc; cases hc)
  · rcases ho : parseObject fuel s.skipNewlines s.current.span with ⟨res, s2⟩
    simp only [ho] at h
    cases res with
    | ok root =>
      simp only [Prod.mk.injEq, Except.ok.injEq] at h
      cases h.1
      refine NodeOk.doc _ _ ?_
      intro c hc
      rw [List.mem_singleton.mp hc]
      exact (parserBlock_ok fuel).2.2.1 _ _ _ _ ho
    | error e => simp at h

/-- The strict entry point, written with projections instead of the
let-destructuring (definitionally equal form used to reason about a
symbolic source). -/
theorem parse_proj (source : String) :
    parse source =
      (match ((parseDocument (parseFuel (parserInit source))
          (parserInit source)).2).errors.head? with
       | some e => Except.error e
       | none => (parseDocument (parseFuel (parserInit source))
          (parserInit source)).1) := rfl

/-- The recovering entry point, written with projections instead of the
let-destructuring. -/
theorem parseWithErrors_proj (source : String) :
    parseWithErrors source =
      (match (parseDocument (parseFuel (parserInit source))
          (parserInit source)).1 with
       | .ok ast => (some ast, (parseDocument (parseFuel (parserInit source))
           (parserInit source)).2.errors)
       | .error _ =>
         if (parseDocument (parseFuel (parserInit source))
             (parserInit source)).2.errors.isEmpty then (none, [])
         else (none, (parseDocument (parseFuel (parserInit source))
           (parserInit source)).2.errors)) := rfl

/-- C2 (corrected): every `Number` node in any AST returned by `parse`
or `parse_with_errors` holds a `PosInt` below `2^64` or a `NegInt` that
is non-positive and at least `-2^63` (or a raw-text float); the two
integer variants overlap at zero, and the literal `-0` produces
`NegInt 0`, exhibited on the source `"x: -0"`. -/
theorem c2_number_invariant :
    (∀ (source : String) (ast : AstNode),
        (parse source = .ok ast ∨ (parseWithErrors source).1 = some ast) →
        NodeOk ast) ∧
    firstNumberValue 100 (parsedAst "x: -0") =
      some (NumberValue.negInt 0) := by
  constructor
  · intro source ast hsrc
    rcases hsrc with hp | hw
    · rw [parse_proj] at hp
      rcases hd : parseDocument (parseFuel (parserInit source))
          (parserInit source) with ⟨res, s2⟩
      simp only [hd] at hp
      rcases hh : s2.errors.head? with _ | e
      · simp only [hh] at hp
        cases hp
        exact parseDocument_ok hd
      · simp only [hh] at hp
        simp at hp
    · rw [parseWithErrors_proj] at hw
      rcases hd : parseDocument (parseFuel (parserInit source))
          (parserInit source) with ⟨res, s2⟩
      simp only [hd] at hw
      cases res with
      | ok ast0 =>
        simp only [Option.some.injEq] at hw
        cases hw
        exact parseDocument_ok hd
      | error e =>
        split at hw
        case h_1 r a heq => exact absurd heq (by simp)
        case h_2 r a heq => split at hw <;> simp at hw
  · rfl

/-- Witness for the C2 invariant at the concrete source `"a: -5"`:
parsing succeeds with a document holding `NegInt (-5)`, and the
invariant theorem applies to it. -/
theorem c2_number_invariant_witness :
    parse "a: -5" = Except.ok (AstNode.document
      [AstNode.object
        [ObjectEntry.mk "a" ⟨⟨0, 0, 0⟩, ⟨0, 1, 1⟩⟩
          (AstNode.number (NumberValue.negInt (-5)) ⟨⟨0, 3, 3⟩, ⟨0, 5, 5⟩⟩)]
        ⟨⟨0, 0, 0⟩, ⟨0, 5, 5⟩⟩]
      ⟨⟨0, 0, 0⟩, ⟨0, 5, 5⟩⟩) ∧
    NodeOk (AstNode.document
      [AstNode.object
        [ObjectEntry.mk "a" ⟨⟨0, 0, 0⟩, ⟨0, 1, 1⟩⟩
          (AstNode.number (NumberValue.negInt (-5)) ⟨⟨0, 3, 3⟩, ⟨0, 5, 5⟩⟩)]
        ⟨⟨0, 0, 0⟩, ⟨0, 5, 5⟩⟩]
      ⟨⟨0, 0, 0⟩, ⟨0, 5, 5⟩⟩) :=
  ⟨rfl, c2_number_invariant.1 "a: -5" _ (Or.inl rfl)⟩
